import Mathlib

/-!
# Verification development for `src/server/server.cpp`

A shallow embedding of the asynchronous HTTP server: the per-connection
`Service` state machine, the `Acceptor`, and the parts of the C++ stream and
Boost.Asio contracts that the callbacks rely on.

Bytes are modelled as `Char`s and byte strings as `List Char`.  Every callback
is a pure function on the connection record `Conn`, which holds the fields of
the C++ object, the completion handler currently registered with the reactor
and the trace of externally visible effects issued so far.

Environment assumptions.  The calls `m_sock->shutdown(...)`,
`boost::filesystem::exists` and the stream operations on an opened file are
taken to return normally (the source uses their throwing forms and catches
nothing); an opened file yields its full contents and their length.  The
reactor is represented by the completions it delivers: `run` accepts every
sequence of completions, `serve` only those the model of
`asio::async_read_until` produces for a given client.
-/

namespace HttpServer

/-- Byte strings (`std::string`, the stream buffer, file contents). -/
abbrev Bytes := List Char

/-! ## Error codes (`boost::system::error_code`) -/

/-- Error categories used by Boost.Asio. -/
inductive error_category
  | system
  | netdb
  | addrinfo
  | misc
  deriving DecidableEq, Repr

/-- A `boost::system::error_code`: an integer value and its category. -/
structure error_code where
  value : Int
  category : error_category
  deriving DecidableEq, Repr

/-- The default-constructed (success) error code. -/
def error_code.success : error_code := ⟨0, .system⟩

/-- `asio::error::eof` (misc category, value 2). -/
def asio_error_eof : error_code := ⟨2, .misc⟩

/-- `asio::error::not_found` (misc category, value 3): the delimiter was not
found before the stream buffer reached its maximum size. -/
def asio_error_not_found : error_code := ⟨3, .misc⟩

/-! ## Input streams (`std::istream`, `std::istringstream`) -/

/-- `std::isspace` in the "C" locale. -/
def isspace (c : Char) : Bool :=
  c == ' ' || c == '\t' || c == '\n' || c == '\x0b' || c == '\x0c' || c == '\r'

/-- Split at the first occurrence of `d`: the characters before it and, when
it occurs, the characters after it. -/
def splitAtDelim (d : Char) : Bytes → Bytes × Option Bytes
  | [] => ([], none)
  | c :: cs =>
    if c = d then ([], some cs)
    else ((c :: (splitAtDelim d cs).1), (splitAtDelim d cs).2)

/-- An input stream: the unread characters and the two state bits the code
depends on. -/
structure istream where
  buf : Bytes
  eofbit : Bool := false
  failbit : Bool := false
  deriving DecidableEq, Repr

/-- `is.good()`. -/
def istream.good (is : istream) : Bool := !is.eofbit && !is.failbit

/-- `is.eof()`. -/
def istream.eof (is : istream) : Bool := is.eofbit

/-- `std::getline(is, str, delim)`: on a good stream the string is replaced by
the characters up to the delimiter, which is extracted and dropped; reaching
the end of the input sets `eofbit` (and `failbit` when nothing was extracted).
On a stream that is not good the string is left alone and `failbit` is set. -/
def getline (is : istream) (str : Bytes) (delim : Char) : istream × Bytes :=
  if is.good then
    match splitAtDelim delim is.buf with
    | (pre, some rest) => ({ is with buf := rest }, pre)
    | (pre, none) => ({ buf := [], eofbit := true, failbit := pre.isEmpty }, pre)
  else ({ is with failbit := true }, str)

/-- `is.get()`: extracts one character; at the end of input sets `eofbit` and
`failbit`. -/
def istream.get (is : istream) : istream :=
  if is.good then
    match is.buf with
    | [] => { buf := [], eofbit := true, failbit := true }
    | _ :: rest => { is with buf := rest }
  else { is with failbit := true }

/-- `is >> str` for a `std::string`: skips leading whitespace, then extracts
the maximal run of non-whitespace characters.  When only whitespace is left
the string keeps its old value and `eofbit`, `failbit` are set; a token that
runs to the end of the input sets `eofbit`. -/
def extract (is : istream) (str : Bytes) : istream × Bytes :=
  if is.good then
    match is.buf.dropWhile isspace with
    | [] => ({ buf := [], eofbit := true, failbit := true }, str)
    | c :: cs =>
      ({ buf := (c :: cs).dropWhile (fun x => !isspace x),
         eofbit := ((c :: cs).dropWhile (fun x => !isspace x)).isEmpty,
         failbit := false },
       (c :: cs).takeWhile (fun x => !isspace x))
  else ({ is with failbit := true }, str)

/-- `std::to_string` of an unsigned integer: its decimal digits. -/
def to_string (n : Nat) : Bytes := Nat.toDigits 10 n

/-! ## The file-system collaborator -/

/-- The file system as seen by `process_request`:
`boost::filesystem::exists` and opening a file for binary reading, which
yields the full contents when it succeeds. -/
structure FileSystem where
  file_exists : Bytes → Bool
  open_binary : Bytes → Option Bytes

/-! ## The `Service` class -/

/-- The static table `Service::http_status_table`. -/
def http_status_table : List (Nat × Bytes) :=
  [ (200, "200 OK".toList),
    (404, "404 Not Found".toList),
    (413, "413 Request Entity Too Large".toList),
    (500, "500 Server Error".toList),
    (501, "501 Not Implemented".toList),
    (505, "505 HTTP Version Not Supported".toList) ]

/-- `std::map::at`: the mapped value, or nothing (the C++ call throws
`std::out_of_range`). -/
def map_at (m : List (Nat × Bytes)) (k : Nat) : Option Bytes :=
  match m with
  | [] => none
  | (k', v) :: rest => if k' = k then some v else map_at rest k

/-- `m[k] = v` on a `std::map<std::string, std::string>`. -/
def map_assign (m : List (Bytes × Bytes)) (k v : Bytes) : List (Bytes × Bytes) :=
  (k, v) :: m.filter (fun e => e.1 ≠ k)

/-- The data members of `Service` (the socket is represented by the effects
issued on it). -/
structure Service where
  m_request : Bytes
  m_request_headers : List (Bytes × Bytes)
  m_requested_resource : Bytes
  m_resource_buffer : Bytes
  m_response_status_code : Nat
  m_resource_size_bytes : Nat
  m_response_headers : Bytes
  m_response_status_line : Bytes
  deriving DecidableEq, Repr

/-- Maximum size of the stream buffer `m_request`. -/
def m_request_max_size : Nat := 4096

/-- The constructor `Service::Service`: status 200 is assumed, resource size
is 0, everything else is empty. -/
def Service.new : Service :=
  { m_request := [],
    m_request_headers := [],
    m_requested_resource := [],
    m_resource_buffer := [],
    m_response_status_code := 200,
    m_resource_size_bytes := 0,
    m_response_headers := [],
    m_response_status_line := [] }

/-- Externally visible actions of a connection handler. -/
inductive Effect
  | async_read_until (delim : Bytes)
  | shutdown_receive
  | shutdown_both
  | async_write (buffers : List Bytes)
  | fs_exists (path : Bytes)
  | fs_open (path : Bytes)
  | cout_error (ec : error_code)
  | cout_request (resource : Bytes)
  | delete_this
  deriving DecidableEq, Repr

/-- The completion handlers a `Service` registers with the reactor. -/
inductive Callback
  | on_request_line_received
  | on_headers_received
  | on_response_sent
  deriving DecidableEq, Repr

/-- A connection handler in flight: the object, the completion handler that is
currently registered (none before `start_handling` and after `delete this`),
and the effects issued so far, oldest first. -/
structure Conn where
  svc : Service
  registered : Option Callback
  trace : List Effect
  deriving DecidableEq, Repr

/-- Abnormal ends of a callback: `out_of_range` is the C++ exception thrown by
`std::map::at`; `loop_bound` is not a C++ outcome, it marks that an iteration
bound of the embedding (header loop, read loop, session driver) ran out, which
the theorems below exclude. -/
inductive Exn
  | out_of_range
  | loop_bound
  deriving DecidableEq, Repr

/-- Append one effect to the trace. -/
def Conn.emit (c : Conn) (e : Effect) : Conn := { c with trace := c.trace ++ [e] }

/-- `Service::on_finish`: `delete this`. -/
def on_finish (c : Conn) : Conn :=
  { (c.emit .delete_this) with registered := none }

/-- `Service::send_response`: shuts down the receive side, looks the status
code up in the table, composes status line and header block and starts one
gather-write of status line, header block (when non-empty) and resource bytes
(when the size is positive). -/
def send_response (c : Conn) : Except Exn Conn :=
  let c1 := c.emit .shutdown_receive
  match map_at http_status_table c1.svc.m_response_status_code with
  | none => .error .out_of_range
  | some status_line =>
    let line := "HTTP/1.1 ".toList ++ status_line ++ "\r\n".toList
    let headers := c1.svc.m_response_headers ++ "\r\n".toList
    let svc := { c1.svc with m_response_status_line := line, m_response_headers := headers }
    let response_buffers :=
      [line]
      ++ (if headers.length > 0 then [headers] else [])
      ++ (if c1.svc.m_resource_size_bytes > 0
            then [c1.svc.m_resource_buffer.take c1.svc.m_resource_size_bytes] else [])
    .ok { svc := svc,
          registered := some .on_response_sent,
          trace := c1.trace ++ [.async_write response_buffers] }

/-- `Service::process_request`: resolves the resource under `../root/`,
answers 404 when it does not exist and 500 when it cannot be opened, and
otherwise loads the contents and appends the `content-length` header. -/
def process_request (fs : FileSystem) (c : Conn) : Conn :=
  let c1 := c.emit (.cout_request c.svc.m_requested_resource)
  let resource_file_path := "../root/".toList ++ c1.svc.m_requested_resource
  let c2 := c1.emit (.fs_exists resource_file_path)
  if !fs.file_exists resource_file_path then
    { c2 with svc := { c2.svc with m_response_status_code := 404 } }
  else
    let c3 := c2.emit (.fs_open resource_file_path)
    match fs.open_binary resource_file_path with
    | none => { c3 with svc := { c3.svc with m_response_status_code := 500 } }
    | some contents =>
      { c3 with svc :=
          { c3.svc with
            m_resource_size_bytes := contents.length,
            m_resource_buffer := contents,
            m_response_headers :=
              c3.svc.m_response_headers ++ "content-length".toList ++ ": ".toList
                ++ to_string contents.length ++ "\r\n".toList } }

/-- The header loop of `on_headers_received`,
`while (!request_stream.eof()) { ... }`, with an iteration bound; `none` when
the bound is exhausted before the loop exits. -/
def parse_headers : Nat → istream → Bytes → Bytes → List (Bytes × Bytes) →
    Option (istream × List (Bytes × Bytes))
  | 0, _, _, _, _ => none
  | fuel + 1, request_stream, header_name, header_value, headers =>
    if request_stream.eof then some (request_stream, headers)
    else
      let r1 := getline request_stream header_name ':'
      if !r1.1.eof then
        let r2 := getline r1.1 header_value '\r'
        let s3 := r2.1.get
        parse_headers fuel s3 r1.2 r2.2 (map_assign headers r1.2 r2.2)
      else
        parse_headers fuel r1.1 r1.2 header_value headers

/-- `Service::start_handling`: arms the read of the request line. -/
def start_handling (c : Conn) : Conn :=
  { (c.emit (.async_read_until "\r\n".toList)) with
    registered := some .on_request_line_received }

/-- `Service::on_request_line_received`. -/
def on_request_line_received (ec : error_code) (c : Conn) : Except Exn Conn :=
  if ec.value ≠ 0 then
    let c1 := c.emit (.cout_error ec)
    if ec = asio_error_not_found then
      send_response { c1 with svc := { c1.svc with m_response_status_code := 413 } }
    else
      .ok (on_finish c1)
  else
    -- Parse the request line.
    let r := getline { buf := c.svc.m_request } [] '\r'
    let request_stream := r.1.get
    let request_line := r.2
    let c1 := { c with svc := { c.svc with m_request := request_stream.buf } }
    let m := extract { buf := request_line } []
    let request_method := m.2
    if request_method ≠ "GET".toList then
      send_response { c1 with svc := { c1.svc with m_response_status_code := 501 } }
    else
      let rr := extract m.1 c1.svc.m_requested_resource
      let c2 := { c1 with svc := { c1.svc with m_requested_resource := rr.2 } }
      let v := extract rr.1 []
      let request_http_version := v.2
      if request_http_version ≠ "HTTP/1.1".toList then
        send_response { c2 with svc := { c2.svc with m_response_status_code := 505 } }
      else
        .ok { (c2.emit (.async_read_until "\r\n\r\n".toList)) with
              registered := some .on_headers_received }

/-- `Service::on_headers_received`.  The header loop consumes at least one
character per iteration until it reaches the end of the buffer, so the
length of the buffer plus two bounds it. -/
def on_headers_received (fs : FileSystem) (ec : error_code) (c : Conn) :
    Except Exn Conn :=
  if ec.value ≠ 0 then
    let c1 := c.emit (.cout_error ec)
    if ec = asio_error_not_found then
      send_response { c1 with svc := { c1.svc with m_response_status_code := 413 } }
    else
      .ok (on_finish c1)
  else
    match parse_headers (c.svc.m_request.length + 2) { buf := c.svc.m_request } [] []
        c.svc.m_request_headers with
    | none => .error .loop_bound
    | some (request_stream, headers) =>
      let c1 := { c with svc := { c.svc with m_request := request_stream.buf,
                                              m_request_headers := headers } }
      send_response (process_request fs c1)

/-- `Service::on_response_sent`: logs a failed write, shuts the socket down in
both directions and destroys the handler. -/
def on_response_sent (ec : error_code) (c : Conn) : Conn :=
  let c1 := if ec.value ≠ 0 then c.emit (.cout_error ec) else c
  on_finish (c1.emit .shutdown_both)

/-! ## Driving a handler by completion events -/

/-- One completion delivered by the reactor: the error code, the
`bytes_transferred` argument, and the bytes the operation committed to the
stream buffer `m_request` before the handler is called (nothing for a write). -/
structure Completion where
  ec : error_code
  bytes_transferred : Nat
  received : Bytes
  deriving DecidableEq, Repr

/-- Deliver a completion to the handler registered by the connection.  A
connection with no registered handler has no pending operation and is left
alone. -/
def deliver (fs : FileSystem) (c : Conn) (ev : Completion) : Except Exn Conn :=
  match c.registered with
  | none => .ok c
  | some .on_request_line_received =>
    on_request_line_received ev.ec
      { c with svc := { c.svc with m_request := c.svc.m_request ++ ev.received },
               registered := none }
  | some .on_headers_received =>
    on_headers_received fs ev.ec
      { c with svc := { c.svc with m_request := c.svc.m_request ++ ev.received },
               registered := none }
  | some .on_response_sent =>
    .ok (on_response_sent ev.ec { c with registered := none })

/-- Deliver a sequence of completions, stopping at the first exception. -/
def deliver_all (fs : FileSystem) : Conn → List Completion → Except Exn Conn
  | c, [] => .ok c
  | c, ev :: evs =>
    match deliver fs c ev with
    | .error e => .error e
    | .ok c1 => deliver_all fs c1 evs

/-- A freshly accepted connection: `(new Service(sock))->start_handling()`. -/
def Conn.accepted : Conn :=
  start_handling { svc := Service.new, registered := none, trace := [] }

/-- The life of one handler under a sequence of completions. -/
def run (fs : FileSystem) (evs : List Completion) : Except Exn Conn :=
  deliver_all fs Conn.accepted evs

/-- The responses written: the concatenated buffers of every `async_write`. -/
def writes : List Effect → List Bytes
  | [] => []
  | .async_write bufs :: es => bufs.flatten :: writes es
  | _ :: es => writes es

/-- The paths handed to the file system, in order. -/
def fs_paths : List Effect → List Bytes
  | [] => []
  | .fs_exists p :: es => p :: fs_paths es
  | .fs_open p :: es => p :: fs_paths es
  | _ :: es => fs_paths es

/-- A successful completion that committed `received` to the buffer. -/
def Completion.ok (received : Bytes) : Completion :=
  { ec := error_code.success, bytes_transferred := received.length, received := received }

/-- A file system holding a single file. -/
def FileSystem.single (path contents : Bytes) : FileSystem :=
  { file_exists := fun p => p == path,
    open_binary := fun p => if p = path then some contents else none }

/-! ## Vocabulary for statements about request lines -/

/-- The request line held by a buffer: everything before the first carriage
return. -/
def request_line (buf : Bytes) : Bytes := buf.takeWhile (fun x => x != '\r')

/-- The first whitespace-delimited token of a line, empty when there is none. -/
def first_token (l : Bytes) : Bytes :=
  (l.dropWhile isspace).takeWhile (fun x => !isspace x)

/-- What is left of a line after its first whitespace-delimited token. -/
def skip_token (l : Bytes) : Bytes :=
  (l.dropWhile isspace).dropWhile (fun x => !isspace x)

/-- First token of the request line: the method. -/
def method_token (buf : Bytes) : Bytes := first_token (request_line buf)

/-- Second token of the request line: the resource. -/
def resource_token (buf : Bytes) : Bytes := first_token (skip_token (request_line buf))

/-- Third token of the request line: the protocol version. -/
def version_token (buf : Bytes) : Bytes :=
  first_token (skip_token (skip_token (request_line buf)))

/-- Carriage return, line feed. -/
def CRLF : Bytes := "\r\n".toList

/-- The state a token extraction leaves a stream in is either good or at the
end of its input. -/
def istream.settled (is : istream) : Prop := is.good = true ∨ is.buf = []

/-- What `on_request_line_received` leaves in the stream buffer: the request
line, its carriage return and one more character are consumed. -/
def after_request_line (buf : Bytes) : Bytes :=
  (getline { buf := buf } [] '\r').1.get.buf

/-! ## Response format and handler invariant -/

/-- A well-formed response for status `code`: the status line with the phrase
the table gives for `code`, a header block that is empty or the single
`content-length` line carrying the length of the body, a blank line, and the
body; header block and body are empty unless the status is 200. -/
def well_formed_response (code : Nat) (w : Bytes) : Prop :=
  ∃ phrase hdr body,
    (code, phrase) ∈ http_status_table ∧
    w = "HTTP/1.1 ".toList ++ phrase ++ CRLF ++ hdr ++ CRLF ++ body ∧
    (hdr = [] ∨ hdr = "content-length: ".toList ++ to_string body.length ++ CRLF) ∧
    (code ≠ 200 → hdr = [] ∧ body = [])

/-- The invariant of a connection handler, by the completion handler that is
registered: while a read is pending the object is as constructed apart from
the stream buffer, header map and resource token, and nothing was written;
while the write is pending and after destruction at most one response was
written, and it is well formed for the status code. -/
def handler_inv (c : Conn) : Prop :=
  match c.registered with
  | some .on_request_line_received =>
    c.svc.m_response_status_code = 200 ∧ c.svc.m_response_headers = [] ∧
    c.svc.m_resource_size_bytes = 0 ∧ writes c.trace = [] ∧
    c.svc.m_requested_resource = []
  | some .on_headers_received =>
    c.svc.m_response_status_code = 200 ∧ c.svc.m_response_headers = [] ∧
    c.svc.m_resource_size_bytes = 0 ∧ writes c.trace = []
  | some .on_response_sent =>
    ∃ w, writes c.trace = [w] ∧ well_formed_response c.svc.m_response_status_code w
  | none =>
    (writes c.trace = [] ∧ c.svc.m_response_status_code = 200) ∨
    ∃ w, writes c.trace = [w] ∧ well_formed_response c.svc.m_response_status_code w

/-! ## Lexical path resolution -/

/-- The segments of a path: the pieces between slashes. -/
def segments_from : Bytes → Bytes → List Bytes
  | seg, [] => [seg]
  | seg, c :: cs =>
    if c = '/' then seg :: segments_from [] cs else segments_from (seg ++ [c]) cs

/-- The segments of a path. -/
def segments (path : Bytes) : List Bytes := segments_from [] path

/-- A directory named relative to the working directory of the server:
`ups` levels up, then down through `names` (the innermost name first). -/
structure Location where
  ups : Nat
  names : List Bytes
  deriving DecidableEq, Repr

/-- Follow one path segment: empty segments and `.` stay, `..` moves to the
parent, any other name moves down. -/
def Location.enter (loc : Location) (segment : Bytes) : Location :=
  if segment = [] ∨ segment = ".".toList then loc
  else if segment = "..".toList then
    match loc.names with
    | [] => { loc with ups := loc.ups + 1 }
    | _ :: outer => { loc with names := outer }
  else { loc with names := segment :: loc.names }

/-- Resolve a relative path from the working directory, segment by segment. -/
def resolve (path : Bytes) : Location :=
  (segments path).foldl Location.enter { ups := 0, names := [] }

/-- The document root `../root/`: the sibling directory `root` of the working
directory. -/
def document_root : Location := { ups := 1, names := ["root".toList] }

/-- A location is inside the document root when it is the root itself or
below it. -/
def inside_document_root (loc : Location) : Bool :=
  loc.ups == 1 && loc.names.getLast? == some "root".toList

/-- Whether following the segments from a directory `depth` levels below the
document root ever steps above the root: a `..` met at depth 0. -/
def steps_above_root : Nat → List Bytes → Bool
  | _, [] => false
  | depth, s :: ss =>
    if s = [] ∨ s = ".".toList then steps_above_root depth ss
    else if s = "..".toList then
      (if depth = 0 then true else steps_above_root (depth - 1) ss)
    else steps_above_root (depth + 1) ss

/-! ## The `Acceptor` class -/

/-- Externally visible actions of the acceptor. -/
inductive AcceptorEffect
  | listen
  | async_accept
  | start_service
  | cout_error (ec : error_code)
  | close
  deriving DecidableEq, Repr

/-- The acceptor: the stop flag `m_isStopped`, whether the listening socket is
open, the accept operations armed and not yet completed, and the effects
issued so far. -/
structure Acceptor where
  m_isStopped : Bool
  is_open : Bool
  pending_accepts : Nat
  trace : List AcceptorEffect
  deriving DecidableEq, Repr

/-- The constructor `Acceptor::Acceptor`: socket opened and bound, not stopped. -/
def Acceptor.new : Acceptor :=
  { m_isStopped := false, is_open := true, pending_accepts := 0, trace := [] }

/-- `Acceptor::InitAccept`: arms one asynchronous accept. -/
def Acceptor.InitAccept (a : Acceptor) : Acceptor :=
  { a with pending_accepts := a.pending_accepts + 1, trace := a.trace ++ [.async_accept] }

/-- `Acceptor::Start`: listens and arms the first accept. -/
def Acceptor.Start (a : Acceptor) : Acceptor :=
  Acceptor.InitAccept { a with trace := a.trace ++ [.listen] }

/-- `Acceptor::Stop`: sets the stop flag. -/
def Acceptor.Stop (a : Acceptor) : Acceptor := { a with m_isStopped := true }

/-- `Acceptor::onAccept`: on success a `Service` is created and started, on
failure the error is logged; then the next accept is armed unless the stop
flag is set, in which case the listening socket is closed. -/
def Acceptor.onAccept (ec : error_code) (a : Acceptor) : Acceptor :=
  let a1 : Acceptor :=
    if ec.value = 0 then { a with trace := a.trace ++ [.start_service] }
    else { a with trace := a.trace ++ [.cout_error ec] }
  if !a1.m_isStopped then a1.InitAccept
  else { a1 with is_open := false, trace := a1.trace ++ [.close] }

/-- What can happen to a started acceptor: `Stop` is called, or the pending
accept completes. -/
inductive AcceptorEvent
  | stop
  | accept_completed (ec : error_code)
  deriving DecidableEq, Repr

/-- One event.  An accept completion is only delivered for an accept that is
pending; it consumes that operation and runs `onAccept`. -/
def Acceptor.step (a : Acceptor) : AcceptorEvent → Acceptor
  | .stop => a.Stop
  | .accept_completed ec =>
    if a.pending_accepts = 0 then a
    else Acceptor.onAccept ec { a with pending_accepts := a.pending_accepts - 1 }

/-- The acceptor after `Start` and a sequence of events. -/
def Acceptor.run (evs : List AcceptorEvent) : Acceptor :=
  evs.foldl Acceptor.step Acceptor.new.Start

/-- Number of accepts armed in a trace. -/
def accepts_armed (t : List AcceptorEffect) : Nat := t.count .async_accept

/-- Number of services created and started in a trace. -/
def services_started (t : List AcceptorEffect) : Nat := t.count .start_service

/-! ## The transport: `asio::async_read_until` on a client connection -/

/-- Position of the first occurrence of `delim` in a buffer. -/
def find_delim (delim : Bytes) : Bytes → Option Nat
  | [] => if delim.isPrefixOf [] then some 0 else none
  | c :: cs =>
    if delim.isPrefixOf (c :: cs) then some 0
    else (find_delim delim cs).map (fun p => p + 1)

/-- What the peer does once all its bytes have been read: keep the connection
open and send nothing more, close its sending side (the read fails with
`asio::error::eof`), or fail the connection with a system error. -/
inductive PeerEnd
  | idle
  | closed
  | failed (errno : Nat)
  deriving DecidableEq, Repr

/-- The error code a read on an exhausted connection completes with, if it
completes at all. -/
def PeerEnd.error : PeerEnd → Option error_code
  | .idle => none
  | .closed => some asio_error_eof
  | .failed errno => some { value := (errno : Int) + 1, category := .system }

/-- A client: the bytes it sends, how the network hands them to successive
socket reads (each read returns at least one byte and at most one more than
the next entry of `chunks`; when the list is used up, all that is left), and
what it does afterwards.  Every sequence of read sizes a real socket can
produce is the effect of some `chunks`. -/
structure Client where
  bytes : Bytes
  chunks : List Nat
  ending : PeerEnd
  deriving DecidableEq, Repr

/-- How an `async_read_until` ends: its handler is called with an error code
and a byte count, after `committed` was appended to the stream buffer, or it
stays pending for ever. -/
inductive ReadOutcome
  | completed (ec : error_code) (bytes_transferred : Nat) (committed : Bytes)
      (unread : Bytes) (chunks : List Nat)
  | pending (committed : Bytes)
  deriving DecidableEq, Repr

/-- A read on a connection whose bytes have all been read: it completes with
the error of the peer, or never. -/
def read_exhausted (ending : PeerEnd) (committed : Bytes) (chunks : List Nat) : ReadOutcome :=
  match ending.error with
  | none => .pending committed
  | some ec => .completed ec 0 committed [] chunks

/-- The number of bytes one socket read returns: at least one, at most the
room left in the buffer (Asio asks for no more than that), at most what the
network hands over. -/
def read_some_size (chunks : List Nat) (room : Nat) (unread : Bytes) : Nat :=
  min (chunks.headD unread.length + 1) (min room unread.length)

/-- The composed operation `asio::async_read_until(sock, buf, delim, handler)`
on a stream buffer that holds `buf0` and has maximum size
`m_request_max_size`: it completes successfully as soon as the buffer
contains the delimiter, with `asio::error::not_found` when the buffer is full
without containing it, and otherwise reads some more bytes from the socket,
completing with the error of that read if it fails.  The first argument
bounds the number of socket reads. -/
def async_read_until (delim : Bytes) (buf0 : Bytes) (ending : PeerEnd) :
    Nat → Bytes → Bytes → List Nat → Option ReadOutcome
  | 0, _, _, _ => none
  | fuel + 1, committed, unread, chunks =>
    if (find_delim delim (buf0 ++ committed)).isSome then
      some (.completed error_code.success
        ((find_delim delim (buf0 ++ committed)).getD 0 + delim.length) committed unread chunks)
    else if (buf0 ++ committed).length = m_request_max_size then
      some (.completed asio_error_not_found 0 committed unread chunks)
    else if unread = [] then
      some (read_exhausted ending committed chunks)
    else
      async_read_until delim buf0 ending fuel
        (committed ++ unread.take
          (read_some_size chunks (m_request_max_size - (buf0 ++ committed).length) unread))
        (unread.drop
          (read_some_size chunks (m_request_max_size - (buf0 ++ committed).length) unread))
        chunks.tail

/-- How a connection ends: the handler destroyed itself, or it waits for ever
for a read that never completes. -/
inductive Session
  | finished (c : Conn)
  | stalled (c : Conn)
  deriving DecidableEq, Repr

/-- The connection record at the end of a session. -/
def Session.conn : Session → Conn
  | .finished c => c
  | .stalled c => c

/-- Run a handler against a client: the operation armed last is carried out
on the transport and its completion is delivered, until the handler is
destroyed or stalls.  Writes complete with `write_ec`.  The first argument
bounds the number of completions. -/
def drive (fs : FileSystem) (ending : PeerEnd) (write_ec : error_code) :
    Nat → Conn → Bytes → List Nat → Except Exn Session
  | 0, _, _, _ => .error .loop_bound
  | n + 1, c, unread, chunks =>
    match c.registered with
    | none => .ok (.finished c)
    | some _ =>
      match c.trace.getLast? with
      | some (.async_read_until delim) =>
        match async_read_until delim c.svc.m_request ending (unread.length + 1) [] unread chunks with
        | none => .error .loop_bound
        | some (.pending committed) =>
          .ok (.stalled { c with svc := { c.svc with m_request := c.svc.m_request ++ committed } })
        | some (.completed ec k committed unread1 chunks1) =>
          match deliver fs c { ec := ec, bytes_transferred := k, received := committed } with
          | .error e => .error e
          | .ok c1 => drive fs ending write_ec n c1 unread1 chunks1
      | some (.async_write buffers) =>
        match deliver fs c { ec := write_ec,
                             bytes_transferred := if write_ec.value = 0 then buffers.flatten.length else 0,
                             received := [] } with
        | .error e => .error e
        | .ok c1 => drive fs ending write_ec n c1 unread chunks
      | _ => .ok (.stalled c)

/-- One accepted connection served from start to end: at most three
completions (request line, headers, response) precede the destruction. -/
def serve (fs : FileSystem) (cl : Client) (write_ec : error_code) : Except Exn Session :=
  drive fs cl.ending write_ec 4 Conn.accepted cl.bytes cl.chunks

/-- The request of the scenario without headers: the request line for
`/missing.txt` followed directly by the blank line. -/
def headerless_request : Bytes := "GET /missing.txt HTTP/1.1\r\n\r\n".toList

/-! ## Stream lemmas -/

theorem splitAtDelim_fst (d : Char) (l : Bytes) :
    (splitAtDelim d l).1 = l.takeWhile (fun x => x != d) := by
  induction l with
  | nil => rfl
  | cons c cs ih =>
    by_cases h : c = d
    · simp [splitAtDelim, h]
    · simp [splitAtDelim, h, ih]

theorem splitAtDelim_length (d : Char) (l : Bytes) :
    ∀ rest, (splitAtDelim d l).2 = some rest → rest.length < l.length := by
  induction l with
  | nil => intro rest h; simp [splitAtDelim] at h
  | cons c cs ih =>
    intro rest h
    by_cases hc : c = d
    · simp [splitAtDelim, hc] at h
      subst h
      simp
    · simp [splitAtDelim, hc] at h
      have := ih rest h
      simp
      omega

theorem getline_snd (l : Bytes) (d : Char) :
    (getline { buf := l } [] d).2 = l.takeWhile (fun x => x != d) := by
  unfold getline
  simp only [istream.good, Bool.not_false, Bool.and_self, if_true]
  rw [← splitAtDelim_fst]
  rcases h : splitAtDelim d l with ⟨pre, _ | rest⟩ <;> simp

theorem extract_snd (is : istream) (h : is.settled) :
    (extract is []).2 = first_token is.buf := by
  unfold extract first_token
  rcases h with h | h
  · simp only [h, if_true]
    rcases hd : List.dropWhile isspace is.buf with _ | ⟨c, cs⟩ <;> simp
  · by_cases hg : is.good = true
    · simp [hg, h]
    · simp [hg, h]

theorem extract_buf (is : istream) (h : is.settled) :
    (extract is []).1.buf = skip_token is.buf := by
  unfold extract skip_token
  rcases h with h | h
  · simp only [h, if_true]
    rcases hd : List.dropWhile isspace is.buf with _ | ⟨c, cs⟩ <;> simp
  · by_cases hg : is.good = true
    · simp [hg, h]
    · simp [hg, h]

theorem extract_settled (is : istream) (str : Bytes) (h : is.settled) :
    (extract is str).1.settled := by
  unfold extract istream.settled
  rcases h with h | h
  · simp only [h, if_true]
    rcases hd : List.dropWhile isspace is.buf with _ | ⟨c, cs⟩
    · simp
    · simp only [istream.good]
      rcases hr : List.dropWhile (fun x => !isspace x) (c :: cs) with _ | ⟨c2, cs2⟩ <;> simp
  · by_cases hg : is.good = true
    · simp [hg, h]
    · simp [hg, h]

theorem settled_fresh (l : Bytes) : istream.settled { buf := l } := by
  left; rfl

theorem request_line_step (ec : error_code) (c : Conn) (hec : ec.value = 0)
    (hres : c.svc.m_requested_resource = []) :
    on_request_line_received ec c =
      if method_token c.svc.m_request ≠ "GET".toList then
        send_response { c with svc := { c.svc with
          m_request := after_request_line c.svc.m_request,
          m_response_status_code := 501 } }
      else if version_token c.svc.m_request ≠ "HTTP/1.1".toList then
        send_response { c with svc := { c.svc with
          m_request := after_request_line c.svc.m_request,
          m_requested_resource := resource_token c.svc.m_request,
          m_response_status_code := 505 } }
      else
        .ok { svc := { c.svc with
                m_request := after_request_line c.svc.m_request,
                m_requested_resource := resource_token c.svc.m_request },
              registered := some .on_headers_received,
              trace := c.trace ++ [.async_read_until "\r\n\r\n".toList] } := by
  have h1 : (extract { buf := (getline { buf := c.svc.m_request } [] '\r').2 } []).2
      = method_token c.svc.m_request := by
    rw [extract_snd _ (settled_fresh _), getline_snd]; rfl
  have s1 := extract_settled { buf := (getline { buf := c.svc.m_request } [] '\r').2 } []
    (settled_fresh _)
  have b1 : (extract { buf := (getline { buf := c.svc.m_request } [] '\r').2 } []).1.buf
      = skip_token (request_line c.svc.m_request) := by
    rw [extract_buf _ (settled_fresh _), getline_snd]; rfl
  have h2 : (extract (extract { buf := (getline { buf := c.svc.m_request } [] '\r').2 } []).1
      []).2 = resource_token c.svc.m_request := by
    rw [extract_snd _ s1, b1]; rfl
  have s2 := extract_settled _ [] s1
  have h3 : (extract (extract (extract { buf := (getline { buf := c.svc.m_request } [] '\r').2 }
      []).1 []).1 []).2 = version_token c.svc.m_request := by
    rw [extract_snd _ s2, extract_buf _ s1, b1]; rfl
  unfold on_request_line_received
  simp only [hec, ne_eq, not_true_eq_false, if_false, hres, h1, h2, h3, Conn.emit,
    after_request_line]

/-! ## Header stage -/

theorem parse_headers_total (fuel : Nat) :
    ∀ (is : istream) (n v : Bytes) (h : List (Bytes × Bytes)),
      (is.failbit = true → is.eofbit = true) →
      ((is.eofbit = true ∧ 0 < fuel) ∨ is.buf.length + 1 < fuel) →
      ∃ r, parse_headers fuel is n v h = some r ∧ r.1.eofbit = true := by
  induction fuel with
  | zero => intro is n v h _ hf; omega
  | succ fuel ih =>
    intro is n v h hinv hf
    unfold parse_headers
    by_cases heof : is.eofbit = true
    · exact ⟨(is, h), by simp [istream.eof, heof], heof⟩
    · have hfail : is.failbit = false := by
        cases hfb : is.failbit
        · rfl
        · exact absurd (hinv hfb) heof
      have heof2 : is.eofbit = false := by simpa using heof
      have hlen : is.buf.length + 1 < fuel + 1 := by
        rcases hf with ⟨h1, _⟩ | h2
        · exact absurd h1 heof
        · exact h2
      simp only [istream.eof, heof2, Bool.false_eq_true, if_false]
      rcases hs : splitAtDelim ':' is.buf with ⟨pre, _ | rest⟩
      · -- no colon: the stream is exhausted
        simp only [getline, istream.good, heof2, hfail, hs, Bool.not_false, Bool.and_self,
          if_true, Bool.not_true, Bool.false_eq_true, if_false]
        apply ih
        · intro _; rfl
        · left; exact ⟨rfl, by omega⟩
      · have hrest : rest.length < is.buf.length :=
          splitAtDelim_length ':' is.buf rest (by rw [hs])
        simp only [getline, istream.good, heof2, hfail, hs, Bool.not_false, Bool.and_self,
          if_true]
        rcases hs2 : splitAtDelim '\r' rest with ⟨pre2, _ | rest2⟩
        · simp only [istream.get, istream.good, Bool.not_true, Bool.false_and,
            Bool.false_eq_true, if_false]
          apply ih
          · intro _; rfl
          · left; exact ⟨rfl, by omega⟩
        · have hrest2 : rest2.length < rest.length :=
            splitAtDelim_length '\r' rest rest2 (by rw [hs2])
          cases rest2 with
          | nil =>
            simp only [istream.get, istream.good, heof2, hfail, Bool.not_false, Bool.and_self,
              if_true]
            apply ih
            · intro _; rfl
            · left; exact ⟨rfl, by omega⟩
          | cons x rest3 =>
            simp only [istream.get, istream.good, heof2, hfail, Bool.not_false, Bool.and_self,
              if_true]
            apply ih
            · intro hfb; simp [hfail] at hfb
            · right
              simp only [List.length_cons] at hrest2
              show rest3.length + 1 < fuel
              omega

/-- A successful header read always ends in `process_request` followed by
`send_response`; only the stream buffer and the header map depend on the
bytes received. -/
theorem headers_step (fs : FileSystem) (ec : error_code) (c : Conn) (hec : ec.value = 0) :
    ∃ rest headers,
      on_headers_received fs ec c =
        send_response (process_request fs
          { c with svc := { c.svc with m_request := rest, m_request_headers := headers } }) := by
  obtain ⟨r, hr, _⟩ := parse_headers_total (c.svc.m_request.length + 2)
    { buf := c.svc.m_request } [] [] c.svc.m_request_headers (by intro h; cases h)
    (Or.inr (by simp))
  refine ⟨r.1.buf, r.2, ?_⟩
  unfold on_headers_received
  simp only [hec, ne_eq, not_true_eq_false, if_false, hr]

/-! ## Token lemmas for a well-formed request line -/

theorem takeWhile_append_stop (p : Char → Bool) (l r : Bytes) (a : Char)
    (hl : ∀ x ∈ l, p x = true) (ha : p a = false) :
    (l ++ a :: r).takeWhile p = l := by
  induction l with
  | nil => simp [List.takeWhile, ha]
  | cons x xs ih =>
    have hx : p x = true := hl x (List.mem_cons_self _ _)
    have hxs : ∀ y ∈ xs, p y = true := fun y hy => hl y (List.mem_cons_of_mem _ hy)
    simp [List.takeWhile, hx, ih hxs]

theorem dropWhile_append_stop (p : Char → Bool) (l r : Bytes) (a : Char)
    (hl : ∀ x ∈ l, p x = true) (ha : p a = false) :
    (l ++ a :: r).dropWhile p = a :: r := by
  induction l with
  | nil => simp [List.dropWhile, ha]
  | cons x xs ih =>
    have hx : p x = true := hl x (List.mem_cons_self _ _)
    have hxs : ∀ y ∈ xs, p y = true := fun y hy => hl y (List.mem_cons_of_mem _ hy)
    simp [List.dropWhile, hx, ih hxs]

theorem not_cr_of_not_space (x : Char) (h : isspace x = false) : (x != '\r') = true := by
  by_cases hx : x = '\r'
  · subst hx; exact absurd h (by decide)
  · simpa using hx

/-- The request line of a buffer that starts with `GET <resource> HTTP/1.1`
and a carriage return, for a non-empty resource free of whitespace. -/
theorem request_line_of_get (res rest : Bytes) (hns : ∀ x ∈ res, isspace x = false) :
    request_line ("GET ".toList ++ res ++ " HTTP/1.1\r\n".toList ++ rest)
      = "GET ".toList ++ res ++ " HTTP/1.1".toList := by
  have e : "GET ".toList ++ res ++ " HTTP/1.1\r\n".toList ++ rest
      = ("GET ".toList ++ res ++ " HTTP/1.1".toList) ++ '\r' :: ('\n' :: rest) := by
    simp
  rw [e]
  unfold request_line
  apply takeWhile_append_stop
  · intro x hx
    simp only [List.mem_append] at hx
    rcases hx with (hx | hx) | hx
    · revert x; decide
    · exact not_cr_of_not_space x (hns x hx)
    · revert x; decide
  · decide

theorem tokens_of_get (res : Bytes) (hne : res ≠ []) (hns : ∀ x ∈ res, isspace x = false) :
    first_token ("GET ".toList ++ res ++ " HTTP/1.1".toList) = "GET".toList ∧
    first_token (skip_token ("GET ".toList ++ res ++ " HTTP/1.1".toList)) = res ∧
    first_token (skip_token (skip_token ("GET ".toList ++ res ++ " HTTP/1.1".toList)))
      = "HTTP/1.1".toList := by
  have hns2 : ∀ x ∈ res, (fun y => !isspace y) x = true := by
    intro x hx; simp [hns x hx]
  have e : "GET ".toList ++ res ++ " HTTP/1.1".toList
      = 'G' :: 'E' :: 'T' :: ' ' :: (res ++ ' ' :: "HTTP/1.1".toList) := by simp
  have hsk : skip_token ("GET ".toList ++ res ++ " HTTP/1.1".toList)
      = ' ' :: (res ++ ' ' :: "HTTP/1.1".toList) := by
    rw [e]; simp [skip_token, List.dropWhile, isspace]
  have hd : (' ' :: (res ++ ' ' :: "HTTP/1.1".toList)).dropWhile isspace
      = res ++ ' ' :: "HTTP/1.1".toList := by
    cases res with
    | nil => exact absurd rfl hne
    | cons r rs =>
      have hr : isspace r = false := hns r (List.mem_cons_self _ _)
      have hsp : isspace ' ' = true := by decide
      simp [List.dropWhile, hr, hsp]
  refine ⟨?_, ?_, ?_⟩
  · rw [e]; simp [first_token, List.dropWhile, List.takeWhile, isspace]
  · rw [hsk]; unfold first_token; rw [hd]
    exact takeWhile_append_stop _ res _ ' ' hns2 (by decide)
  · rw [hsk]; unfold skip_token; rw [hd]
    rw [dropWhile_append_stop _ res _ ' ' hns2 (by decide)]
    decide

theorem get_line_tokens (res rest : Bytes) (hne : res ≠ [])
    (hns : ∀ x ∈ res, isspace x = false) :
    method_token ("GET ".toList ++ res ++ " HTTP/1.1\r\n".toList ++ rest) = "GET".toList ∧
    resource_token ("GET ".toList ++ res ++ " HTTP/1.1\r\n".toList ++ rest) = res ∧
    version_token ("GET ".toList ++ res ++ " HTTP/1.1\r\n".toList ++ rest)
      = "HTTP/1.1".toList := by
  unfold method_token resource_token version_token
  rw [request_line_of_get res rest hns]
  exact tokens_of_get res hne hns

/-! ## Composite steps of `run` -/

/-- The state in which the request-line handler runs on a fresh connection
whose first read committed `received`. -/
theorem run_single (fs : FileSystem) (ev : Completion) :
    run fs [ev] =
      match on_request_line_received ev.ec
        { svc := { Service.new with m_request := ev.received },
          registered := none,
          trace := [.async_read_until CRLF] } with
      | .error e => .error e
      | .ok c => .ok c := by
  simp only [run, deliver_all, Conn.accepted, start_handling, Conn.emit, deliver, Service.new,
    List.nil_append, CRLF]

theorem deliver_all_append (fs : FileSystem) (evs evs2 : List Completion) :
    ∀ c, deliver_all fs c (evs ++ evs2) =
      match deliver_all fs c evs with
      | .error e => .error e
      | .ok c1 => deliver_all fs c1 evs2 := by
  induction evs with
  | nil => intro c; rfl
  | cons ev evs ih =>
    intro c
    simp only [List.cons_append, deliver_all]
    cases deliver fs c ev with
    | error e => rfl
    | ok c1 => exact ih c1

theorem deliver_all_single (fs : FileSystem) (c : Conn) (ev : Completion) :
    deliver_all fs c [ev] = deliver fs c ev := by
  simp only [deliver_all]
  cases deliver fs c ev <;> rfl

theorem run_snoc (fs : FileSystem) (evs : List Completion) (ev : Completion) :
    run fs (evs ++ [ev]) =
      match run fs evs with
      | .error e => .error e
      | .ok c => deliver fs c ev := by
  unfold run
  rw [deliver_all_append]
  cases deliver_all fs Conn.accepted evs with
  | error e => rfl
  | ok c => exact deliver_all_single fs c ev

/-- After a successfully read request line with method `GET` and version
`HTTP/1.1` the handler has stored the resource token and armed the header
read; nothing has been written. -/
theorem run_get_line (fs : FileSystem) (ev : Completion) (hec : ev.ec.value = 0)
    (hm : method_token ev.received = "GET".toList)
    (hv : version_token ev.received = "HTTP/1.1".toList) :
    run fs [ev] = .ok
      { svc := { Service.new with
          m_request := after_request_line ev.received,
          m_requested_resource := resource_token ev.received },
        registered := some .on_headers_received,
        trace := [.async_read_until CRLF, .async_read_until (CRLF ++ CRLF)] } := by
  rw [run_single, request_line_step _ _ hec rfl]
  simp only [hm, hv, ne_eq, not_true_eq_false, if_false]
  rfl

/-- A `GET` request line with version `HTTP/1.1` followed by a successful
header read: the response is whatever `process_request` and `send_response`
produce for the stored resource token. -/
theorem run_get_request (fs : FileSystem) (ev1 ev2 : Completion)
    (hec1 : ev1.ec.value = 0)
    (hm : method_token ev1.received = "GET".toList)
    (hv : version_token ev1.received = "HTTP/1.1".toList)
    (hec2 : ev2.ec.value = 0) :
    ∃ rest headers,
      run fs [ev1, ev2] =
        send_response (process_request fs
          { svc := { Service.new with
              m_request := rest,
              m_request_headers := headers,
              m_requested_resource := resource_token ev1.received },
            registered := none,
            trace := [.async_read_until CRLF, .async_read_until (CRLF ++ CRLF)] }) := by
  have h := run_snoc fs [ev1] ev2
  simp only [List.singleton_append, run_get_line fs ev1 hec1 hm hv] at h
  rw [h]
  simp only [deliver]
  obtain ⟨rest, headers, hh⟩ := headers_step fs ev2.ec
    { svc := { Service.new with
        m_request := after_request_line ev1.received ++ ev2.received,
        m_requested_resource := resource_token ev1.received },
      registered := none,
      trace := [.async_read_until CRLF, .async_read_until (CRLF ++ CRLF)] } hec2
  exact ⟨rest, headers, hh⟩

/-! ## The handler invariant -/

theorem writes_append (l1 l2 : List Effect) : writes (l1 ++ l2) = writes l1 ++ writes l2 := by
  induction l1 with
  | nil => rfl
  | cons e es ih => cases e <;> simp [writes, ih]

theorem map_at_mem (m : List (Nat × Bytes)) (k : Nat) (v : Bytes) :
    map_at m k = some v → (k, v) ∈ m := by
  induction m with
  | nil => intro h; simp [map_at] at h
  | cons e es ih =>
    intro h
    obtain ⟨k1, v1⟩ := e
    unfold map_at at h
    by_cases hk : k1 = k
    · simp [hk] at h; subst h; subst hk; exact List.mem_cons_self _ _
    · simp [hk] at h; exact List.mem_cons_of_mem _ (ih h)

/-- The result of `send_response` when the table has a phrase for the status
code. -/
theorem send_response_eq (c : Conn) (phrase : Bytes)
    (hp : map_at http_status_table c.svc.m_response_status_code = some phrase) :
    send_response c = .ok
      { svc := { c.svc with
          m_response_status_line := "HTTP/1.1 ".toList ++ phrase ++ CRLF,
          m_response_headers := c.svc.m_response_headers ++ CRLF },
        registered := some .on_response_sent,
        trace := c.trace ++ [.shutdown_receive] ++
          [.async_write (["HTTP/1.1 ".toList ++ phrase ++ CRLF, c.svc.m_response_headers ++ CRLF]
            ++ (if c.svc.m_resource_size_bytes > 0
                then [c.svc.m_resource_buffer.take c.svc.m_resource_size_bytes] else []))] } := by
  simp only [send_response, Conn.emit, hp, CRLF]
  simp

/-- The response `send_response` writes when no header was added and no
resource was loaded. -/
theorem send_response_bare (c : Conn) (phrase : Bytes)
    (hp : map_at http_status_table c.svc.m_response_status_code = some phrase)
    (hh : c.svc.m_response_headers = []) (hs : c.svc.m_resource_size_bytes = 0)
    (hw : writes c.trace = []) :
    ∃ c1, send_response c = .ok c1 ∧
      c1.svc.m_response_status_code = c.svc.m_response_status_code ∧
      c1.registered = some .on_response_sent ∧
      c1.trace = c.trace ++ [.shutdown_receive,
        .async_write ["HTTP/1.1 ".toList ++ phrase ++ CRLF, CRLF]] ∧
      writes c1.trace = ["HTTP/1.1 ".toList ++ phrase ++ CRLF ++ CRLF] ∧
      handler_inv c1 := by
  have hw1 : writes (c.trace ++ [Effect.shutdown_receive] ++
      [Effect.async_write ["HTTP/1.1 ".toList ++ phrase ++ CRLF, CRLF]])
      = ["HTTP/1.1 ".toList ++ phrase ++ CRLF ++ CRLF] := by
    simp [writes_append, hw, writes]
  refine ⟨_, send_response_eq c phrase hp, rfl, rfl, ?_, ?_, ?_⟩
  · simp [hh, hs]
  · simpa [hh, hs] using hw1
  · refine ⟨_, (by simpa [hh, hs] using hw1), phrase, [], [], map_at_mem _ _ _ hp, ?_,
      Or.inl rfl, ?_⟩
    · simp
    · intro _; exact ⟨rfl, rfl⟩

theorem writes_snoc_cout (t : List Effect) (ec : error_code) :
    writes (t ++ [.cout_error ec]) = writes t := by
  simp [writes_append, writes]

/-- A failed read: 413 when the delimiter was not found, otherwise the handler
is destroyed without writing. -/
theorem read_failure_step (c : Conn) (ec : error_code)
    (hcode : c.svc.m_response_status_code = 200)
    (hh : c.svc.m_response_headers = []) (hs : c.svc.m_resource_size_bytes = 0)
    (hw : writes c.trace = []) (r : Except Exn Conn)
    (hr : r = (if ec = asio_error_not_found then
        send_response { (c.emit (.cout_error ec)) with
          svc := { (c.emit (.cout_error ec)).svc with m_response_status_code := 413 } }
      else .ok (on_finish (c.emit (.cout_error ec))))) :
    (ec = asio_error_not_found →
      ∃ c1, r = .ok c1 ∧ c1.svc.m_response_status_code = 413 ∧
        writes c1.trace = ["HTTP/1.1 413 Request Entity Too Large\r\n\r\n".toList] ∧
        c1.registered = some .on_response_sent ∧ handler_inv c1) ∧
    (ec ≠ asio_error_not_found →
      ∃ c1, r = .ok c1 ∧ writes c1.trace = [] ∧ c1.registered = none ∧
        c1.trace = c.trace ++ [.cout_error ec, .delete_this] ∧ handler_inv c1) := by
  subst hr
  constructor
  · intro hnf
    simp only [hnf, if_true]
    obtain ⟨c1, h1, h2, h3, _, h5, h6⟩ := send_response_bare
      { (c.emit (.cout_error asio_error_not_found)) with
        svc := { (c.emit (.cout_error asio_error_not_found)).svc with
          m_response_status_code := 413 } }
      "413 Request Entity Too Large".toList rfl hh hs
      (by simp only [Conn.emit]; rw [writes_snoc_cout]; exact hw)
    exact ⟨c1, h1, h2, by rw [h5]; rfl, h3, h6⟩
  · intro hnf
    simp only [hnf, if_false]
    refine ⟨_, rfl, ?_, rfl, ?_, ?_⟩
    · simp [on_finish, Conn.emit, writes_append, hw, writes]
    · simp [on_finish, Conn.emit]
    · left
      constructor
      · simp [on_finish, Conn.emit, writes_append, hw, writes]
      · simpa [on_finish, Conn.emit] using hcode

/-- Every delivery preserves the handler invariant and raises no exception. -/
theorem deliver_inv (fs : FileSystem) (c : Conn) (ev : Completion) (h : handler_inv c) :
    ∃ c1, deliver fs c ev = .ok c1 ∧ handler_inv c1 := by
  obtain ⟨svc, reg, trace⟩ := c
  cases reg with
  | none => exact ⟨_, rfl, h⟩
  | some cb =>
    cases cb with
    | on_request_line_received =>
      obtain ⟨hcode, hh, hs, hw, hres⟩ := h
      simp only at hcode hh hs hw hres
      simp only [deliver]
      by_cases hec : ev.ec.value = 0
      · rw [request_line_step ev.ec
          { svc := { svc with m_request := svc.m_request ++ ev.received },
            registered := none, trace := trace } hec hres]
        by_cases hm : method_token (svc.m_request ++ ev.received) = "GET".toList
        · by_cases hv : version_token (svc.m_request ++ ev.received) = "HTTP/1.1".toList
          · simp only [hm, hv, ne_eq, not_true_eq_false, if_false]
            refine ⟨_, rfl, ?_⟩
            refine ⟨hcode, hh, hs, ?_⟩
            simp [writes_append, writes]
            exact hw
          · simp only [hm, hv, ne_eq, not_true_eq_false, not_false_eq_true, if_false, if_true]
            obtain ⟨c1, h1, _, _, _, _, h6⟩ := send_response_bare
              { svc := { svc with
                  m_request := after_request_line (svc.m_request ++ ev.received),
                  m_requested_resource := resource_token (svc.m_request ++ ev.received),
                  m_response_status_code := 505 },
                registered := none, trace := trace }
              "505 HTTP Version Not Supported".toList rfl hh hs hw
            exact ⟨c1, h1, h6⟩
        · simp only [hm, ne_eq, not_false_eq_true, if_true]
          obtain ⟨c1, h1, _, _, _, _, h6⟩ := send_response_bare
            { svc := { svc with
                m_request := after_request_line (svc.m_request ++ ev.received),
                m_response_status_code := 501 },
              registered := none, trace := trace }
            "501 Not Implemented".toList rfl hh hs hw
          exact ⟨c1, h1, h6⟩
      · have := read_failure_step
          { svc := { svc with m_request := svc.m_request ++ ev.received },
            registered := none, trace := trace } ev.ec hcode hh hs hw
          (on_request_line_received ev.ec
            { svc := { svc with m_request := svc.m_request ++ ev.received },
              registered := none, trace := trace })
          (by simp only [on_request_line_received, hec, ne_eq, not_false_eq_true, if_true])
        by_cases hnf : ev.ec = asio_error_not_found
        · obtain ⟨c1, h1, _, _, _, h5⟩ := this.1 hnf
          exact ⟨c1, h1, h5⟩
        · obtain ⟨c1, h1, _, _, _, h5⟩ := this.2 hnf
          exact ⟨c1, h1, h5⟩
    | on_headers_received =>
      obtain ⟨hcode, hh, hs, hw⟩ := h
      simp only at hcode hh hs hw
      simp only [deliver]
      by_cases hec : ev.ec.value = 0
      · obtain ⟨rest, headers, hstep⟩ := headers_step fs ev.ec
          { svc := { svc with m_request := svc.m_request ++ ev.received },
            registered := none, trace := trace } hec
        rw [hstep]
        simp only [process_request, Conn.emit]
        by_cases hex : fs.file_exists ("../root/".toList ++ svc.m_requested_resource) = true
        · simp only [hex, Bool.not_true, Bool.false_eq_true, if_false]
          cases hop : fs.open_binary ("../root/".toList ++ svc.m_requested_resource) with
          | none =>
            simp only []
            obtain ⟨c1, h1, _, _, _, _, h6⟩ := send_response_bare
              { svc := { svc with
                  m_request := rest, m_request_headers := headers,
                  m_response_status_code := 500 },
                registered := none,
                trace := trace ++ [.cout_request svc.m_requested_resource]
                  ++ [.fs_exists ("../root/".toList ++ svc.m_requested_resource)]
                  ++ [.fs_open ("../root/".toList ++ svc.m_requested_resource)] }
              "500 Server Error".toList rfl hh hs
              (by simp [writes_append, writes, hw])
            exact ⟨c1, h1, h6⟩
          | some contents =>
            simp only []
            rw [send_response_eq _ "200 OK".toList (by simp only [hcode]; rfl)]
            refine ⟨_, rfl, ?_⟩
            simp only [handler_inv]
            refine ⟨"HTTP/1.1 ".toList ++ "200 OK".toList ++ CRLF
              ++ ("content-length: ".toList ++ to_string contents.length ++ CRLF) ++ CRLF
              ++ contents, ?_, "200 OK".toList, "content-length: ".toList
              ++ to_string contents.length ++ CRLF, contents, ?_, rfl, Or.inr rfl, ?_⟩
            · simp only [writes_append, hw, writes, List.nil_append, hh]
              cases contents with
              | nil => simp [CRLF]
              | cons b bs => simp [CRLF]
            · simp only [hcode]; decide
            · intro hne; exact absurd hcode hne
        · have hex2 : fs.file_exists ("../root/".toList ++ svc.m_requested_resource) = false := by
            simpa using hex
          simp only [hex2, Bool.not_false, if_true]
          obtain ⟨c1, h1, _, _, _, _, h6⟩ := send_response_bare
            { svc := { svc with
                m_request := rest, m_request_headers := headers,
                m_response_status_code := 404 },
              registered := none,
              trace := trace ++ [.cout_request svc.m_requested_resource]
                ++ [.fs_exists ("../root/".toList ++ svc.m_requested_resource)] }
            "404 Not Found".toList rfl hh hs
            (by simp [writes_append, writes, hw])
          exact ⟨c1, h1, h6⟩
      · have := read_failure_step
          { svc := { svc with m_request := svc.m_request ++ ev.received },
            registered := none, trace := trace } ev.ec hcode hh hs hw
          (on_headers_received fs ev.ec
            { svc := { svc with m_request := svc.m_request ++ ev.received },
              registered := none, trace := trace })
          (by simp only [on_headers_received, hec, ne_eq, not_false_eq_true, if_true])
        by_cases hnf : ev.ec = asio_error_not_found
        · obtain ⟨c1, h1, _, _, _, h5⟩ := this.1 hnf
          exact ⟨c1, h1, h5⟩
        · obtain ⟨c1, h1, _, _, _, h5⟩ := this.2 hnf
          exact ⟨c1, h1, h5⟩
    | on_response_sent =>
      obtain ⟨w, hw, hwf⟩ := h
      refine ⟨_, rfl, ?_⟩
      right
      refine ⟨w, ?_, ?_⟩
      · by_cases hec : ev.ec.value = 0
        · simp [on_response_sent, on_finish, Conn.emit, hec, writes_append, writes, hw]
        · simp [on_response_sent, on_finish, Conn.emit, hec, writes_append, writes, hw]
      · by_cases hec : ev.ec.value = 0
        · simpa [on_response_sent, on_finish, Conn.emit, hec] using hwf
        · simpa [on_response_sent, on_finish, Conn.emit, hec] using hwf

theorem accepted_inv : handler_inv Conn.accepted := by
  refine ⟨rfl, rfl, rfl, rfl, rfl⟩

theorem deliver_all_inv (fs : FileSystem) (evs : List Completion) :
    ∀ c, handler_inv c → ∃ c1, deliver_all fs c evs = .ok c1 ∧ handler_inv c1 := by
  induction evs with
  | nil => intro c h; exact ⟨c, rfl, h⟩
  | cons ev evs ih =>
    intro c h
    obtain ⟨c1, h1, hi1⟩ := deliver_inv fs c ev h
    obtain ⟨c2, h2, hi2⟩ := ih c1 hi1
    exact ⟨c2, by simp only [deliver_all, h1, h2], hi2⟩

/-- Every run ends normally in a state satisfying the invariant. -/
theorem run_inv (fs : FileSystem) (evs : List Completion) :
    ∃ c, run fs evs = .ok c ∧ handler_inv c :=
  deliver_all_inv fs evs Conn.accepted accepted_inv

/-! ## Request-line stage -/

/-- C2: a successfully read request line whose first whitespace-delimited
token is not `GET` is answered with status 501 and exactly the bytes
`HTTP/1.1 501 Not Implemented` CRLF CRLF, whatever else the buffer holds; the
header read is never armed and the file system is never consulted. -/
theorem non_get_method_gives_501 (fs : FileSystem) (ev : Completion)
    (hec : ev.ec.value = 0)
    (hm : method_token ev.received ≠ "GET".toList) :
    ∃ c, run fs [ev] = .ok c ∧
      c.svc.m_response_status_code = 501 ∧
      c.trace = [.async_read_until CRLF, .shutdown_receive,
        .async_write ["HTTP/1.1 501 Not Implemented\r\n".toList, CRLF]] ∧
      writes c.trace = ["HTTP/1.1 501 Not Implemented\r\n\r\n".toList] ∧
      fs_paths c.trace = [] ∧
      c.registered = some .on_response_sent := by
  rw [run_single, request_line_step _ _ hec rfl]
  simp only [hm, ne_eq, not_false_eq_true, if_true]
  refine ⟨_, rfl, ?_, ?_, ?_, ?_, ?_⟩ <;> rfl

/-- Witness for C2: the request `POST /x HTTP/1.1` CRLF CRLF. -/
theorem non_get_method_gives_501_witness :
    (Completion.ok "POST /x HTTP/1.1\r\n\r\n".toList).ec.value = 0 ∧
    method_token (Completion.ok "POST /x HTTP/1.1\r\n\r\n".toList).received ≠ "GET".toList ∧
    ∃ c, run (FileSystem.single [] []) [Completion.ok "POST /x HTTP/1.1\r\n\r\n".toList] = .ok c ∧
      c.svc.m_response_status_code = 501 ∧
      c.trace = [.async_read_until CRLF, .shutdown_receive,
        .async_write ["HTTP/1.1 501 Not Implemented\r\n".toList, CRLF]] ∧
      writes c.trace = ["HTTP/1.1 501 Not Implemented\r\n\r\n".toList] ∧
      fs_paths c.trace = [] ∧
      c.registered = some .on_response_sent :=
  ⟨by decide, by decide,
    non_get_method_gives_501 (FileSystem.single [] [])
      (Completion.ok "POST /x HTTP/1.1\r\n\r\n".toList) (by decide) (by decide)⟩

/-- C3 as stated fails: the request line `POST /x HTTP/1.0` has a version token
different from `HTTP/1.1`, yet the method check comes first and the status is
501, not 505. -/
theorem version_mismatch_with_other_method_is_501 :
    (Completion.ok "POST /x HTTP/1.0\r\n\r\n".toList).ec.value = 0 ∧
    version_token "POST /x HTTP/1.0\r\n\r\n".toList = "HTTP/1.0".toList ∧
    version_token "POST /x HTTP/1.0\r\n\r\n".toList ≠ "HTTP/1.1".toList ∧
    ∃ c, run (FileSystem.single [] []) [Completion.ok "POST /x HTTP/1.0\r\n\r\n".toList] = .ok c ∧
      c.svc.m_response_status_code = 501 ∧
      c.svc.m_response_status_code ≠ 505 ∧
      writes c.trace = ["HTTP/1.1 501 Not Implemented\r\n\r\n".toList] :=
  ⟨by decide, by decide, by decide, _, rfl, by decide, by decide, by decide⟩

/-- C3, amended: a successfully read request line whose method token is `GET`
and whose version token differs from `HTTP/1.1` (a missing token included) is
answered with status 505 and exactly the bytes
`HTTP/1.1 505 HTTP Version Not Supported` CRLF CRLF. -/
theorem get_with_other_version_gives_505 (fs : FileSystem) (ev : Completion)
    (hec : ev.ec.value = 0)
    (hm : method_token ev.received = "GET".toList)
    (hv : version_token ev.received ≠ "HTTP/1.1".toList) :
    ∃ c, run fs [ev] = .ok c ∧
      c.svc.m_response_status_code = 505 ∧
      writes c.trace = ["HTTP/1.1 505 HTTP Version Not Supported\r\n\r\n".toList] ∧
      fs_paths c.trace = [] ∧
      c.registered = some .on_response_sent := by
  rw [run_single, request_line_step _ _ hec rfl]
  simp only [hm, hv, ne_eq, not_true_eq_false, not_false_eq_true, if_true, if_false]
  refine ⟨_, rfl, ?_, ?_, ?_, ?_⟩ <;> rfl

/-- Witness for the amended C3: `GET /x HTTP/1.0`. -/
theorem get_with_other_version_gives_505_witness :
    (Completion.ok "GET /x HTTP/1.0\r\n\r\n".toList).ec.value = 0 ∧
    method_token (Completion.ok "GET /x HTTP/1.0\r\n\r\n".toList).received = "GET".toList ∧
    version_token (Completion.ok "GET /x HTTP/1.0\r\n\r\n".toList).received
      ≠ "HTTP/1.1".toList ∧
    ∃ c, run (FileSystem.single [] []) [Completion.ok "GET /x HTTP/1.0\r\n\r\n".toList] = .ok c ∧
      c.svc.m_response_status_code = 505 ∧
      writes c.trace = ["HTTP/1.1 505 HTTP Version Not Supported\r\n\r\n".toList] ∧
      fs_paths c.trace = [] ∧
      c.registered = some .on_response_sent :=
  ⟨by decide, by decide, by decide,
    get_with_other_version_gives_505 (FileSystem.single [] [])
      (Completion.ok "GET /x HTTP/1.0\r\n\r\n".toList) (by decide) (by decide) (by decide)⟩

/-! ## Serving a resource -/

/-- C1: for a request line `GET <resource> HTTP/1.1` (resource non-empty and
free of whitespace) followed by a successful header read, when the path
`../root/` ++ resource exists and opens with contents `B`, the handler writes
exactly one response: the status line `HTTP/1.1 200 OK`, the header
`content-length: ` with the decimal byte length of `B`, a blank line and the
bytes of `B` unchanged. -/
theorem get_existing_file_gives_200 (fs : FileSystem) (ev1 ev2 : Completion)
    (res rest1 B : Bytes)
    (hec1 : ev1.ec.value = 0)
    (hline : ev1.received = "GET ".toList ++ res ++ " HTTP/1.1\r\n".toList ++ rest1)
    (hne : res ≠ [])
    (hns : ∀ x ∈ res, isspace x = false)
    (hec2 : ev2.ec.value = 0)
    (hex : fs.file_exists ("../root/".toList ++ res) = true)
    (hop : fs.open_binary ("../root/".toList ++ res) = some B) :
    ∃ c, run fs [ev1, ev2] = .ok c ∧
      c.svc.m_response_status_code = 200 ∧
      writes c.trace =
        ["HTTP/1.1 200 OK\r\n".toList ++ "content-length: ".toList ++ to_string B.length
          ++ "\r\n\r\n".toList ++ B] ∧
      c.registered = some .on_response_sent := by
  obtain ⟨hm, hr, hv⟩ := get_line_tokens res rest1 hne hns
  rw [← hline] at hm hr hv
  obtain ⟨rest, headers, h⟩ := run_get_request fs ev1 ev2 hec1 hm hv hec2
  rw [h, hr]
  simp only [process_request, Conn.emit, hex, hop, Bool.not_true, Bool.false_eq_true, if_false,
    Service.new, send_response]
  refine ⟨_, rfl, rfl, ?_, rfl⟩
  cases B with
  | nil => simp [writes, to_string]
  | cons b bs => simp [writes, to_string]

/-- Witness for C1: `GET /index.html HTTP/1.1` with one `Host` header, the file
holding the ten bytes `0123456789`. -/
theorem get_existing_file_gives_200_witness :
    ∃ c, run (FileSystem.single "../root//index.html".toList "0123456789".toList)
        [Completion.ok "GET /index.html HTTP/1.1\r\nHost: x\r\n\r\n".toList, Completion.ok []]
        = .ok c ∧
      c.svc.m_response_status_code = 200 ∧
      writes c.trace = ["HTTP/1.1 200 OK\r\ncontent-length: 10\r\n\r\n0123456789".toList] ∧
      c.registered = some .on_response_sent :=
  get_existing_file_gives_200
    (FileSystem.single "../root//index.html".toList "0123456789".toList)
    (Completion.ok "GET /index.html HTTP/1.1\r\nHost: x\r\n\r\n".toList) (Completion.ok [])
    "/index.html".toList "Host: x\r\n\r\n".toList "0123456789".toList
    (by decide) (by decide) (by decide) (by decide) (by decide) (by decide) (by decide)

/-- C4: for a request with method `GET` and version `HTTP/1.1` followed by a
successful header read, when the path `../root/` ++ resource does not exist
the status is 404 and the bytes written are exactly `HTTP/1.1 404 Not Found`
CRLF CRLF: no `content-length` header and no body. -/
theorem get_missing_file_gives_404 (fs : FileSystem) (ev1 ev2 : Completion)
    (hec1 : ev1.ec.value = 0)
    (hm : method_token ev1.received = "GET".toList)
    (hv : version_token ev1.received = "HTTP/1.1".toList)
    (hec2 : ev2.ec.value = 0)
    (hex : fs.file_exists ("../root/".toList ++ resource_token ev1.received) = false) :
    ∃ c, run fs [ev1, ev2] = .ok c ∧
      c.svc.m_response_status_code = 404 ∧
      writes c.trace = ["HTTP/1.1 404 Not Found\r\n\r\n".toList] ∧
      c.svc.m_response_headers = CRLF ∧
      c.svc.m_resource_size_bytes = 0 ∧
      c.registered = some .on_response_sent := by
  obtain ⟨rest, headers, h⟩ := run_get_request fs ev1 ev2 hec1 hm hv hec2
  rw [h]
  simp only [process_request, Conn.emit, hex, Bool.not_false, if_true, Service.new,
    send_response]
  exact ⟨_, rfl, rfl, rfl, rfl, rfl, rfl⟩

/-- Witness for C4: `GET /missing.txt HTTP/1.1` with one header, on a file
system that holds only `index.html`. -/
theorem get_missing_file_gives_404_witness :
    ∃ c, run (FileSystem.single "../root//index.html".toList "0123456789".toList)
        [Completion.ok "GET /missing.txt HTTP/1.1\r\nHost: x\r\n\r\n".toList, Completion.ok []]
        = .ok c ∧
      c.svc.m_response_status_code = 404 ∧
      writes c.trace = ["HTTP/1.1 404 Not Found\r\n\r\n".toList] ∧
      c.svc.m_response_headers = CRLF ∧
      c.svc.m_resource_size_bytes = 0 ∧
      c.registered = some .on_response_sent :=
  get_missing_file_gives_404
    (FileSystem.single "../root//index.html".toList "0123456789".toList)
    (Completion.ok "GET /missing.txt HTTP/1.1\r\nHost: x\r\n\r\n".toList) (Completion.ok [])
    (by decide) (by decide) (by decide) (by decide) (by decide)

/-! ## Failure mapping, status table, response format -/

/-- C6: at both read stages (the handler registered is the request-line one
or the header one) a read that fails with the delimiter-not-found error sets
status 413 and writes exactly `HTTP/1.1 413 Request Entity Too Large` CRLF
CRLF, and a read that fails with any other error writes nothing and destroys
the handler at once. -/
theorem read_failure_mapping (fs : FileSystem) (pre : List Completion) (c : Conn)
    (ev : Completion)
    (hrun : run fs pre = .ok c)
    (hstage : c.registered = some .on_request_line_received ∨
      c.registered = some .on_headers_received)
    (hec : ev.ec.value ≠ 0) :
    (ev.ec = asio_error_not_found →
      ∃ c1, run fs (pre ++ [ev]) = .ok c1 ∧
        c1.svc.m_response_status_code = 413 ∧
        writes c1.trace = ["HTTP/1.1 413 Request Entity Too Large\r\n\r\n".toList] ∧
        c1.registered = some .on_response_sent) ∧
    (ev.ec ≠ asio_error_not_found →
      ∃ c1, run fs (pre ++ [ev]) = .ok c1 ∧
        writes c1.trace = [] ∧
        c1.registered = none ∧
        c1.trace = c.trace ++ [.cout_error ev.ec, .delete_this]) := by
  obtain ⟨c0, hc0, hinv⟩ := run_inv fs pre
  rw [hrun] at hc0
  cases hc0
  rw [run_snoc, hrun]
  obtain ⟨svc, reg, trace⟩ := c
  simp only at hstage
  rcases hstage with hreg | hreg
  · subst hreg
    obtain ⟨hcode, hh, hs, hw, _⟩ := hinv
    simp only at hcode hh hs hw
    have := read_failure_step
      { svc := { svc with m_request := svc.m_request ++ ev.received },
        registered := none, trace := trace } ev.ec hcode hh hs hw
      (on_request_line_received ev.ec
        { svc := { svc with m_request := svc.m_request ++ ev.received },
          registered := none, trace := trace })
      (by simp only [on_request_line_received, hec, ne_eq, not_false_eq_true, if_true])
    constructor
    · intro hnf
      obtain ⟨c1, h1, h2, h3, h4, _⟩ := this.1 hnf
      exact ⟨c1, h1, h2, h3, h4⟩
    · intro hnf
      obtain ⟨c1, h1, h2, h3, h4, _⟩ := this.2 hnf
      exact ⟨c1, h1, h2, h3, h4⟩
  · subst hreg
    obtain ⟨hcode, hh, hs, hw⟩ := hinv
    simp only at hcode hh hs hw
    have := read_failure_step
      { svc := { svc with m_request := svc.m_request ++ ev.received },
        registered := none, trace := trace } ev.ec hcode hh hs hw
      (on_headers_received fs ev.ec
        { svc := { svc with m_request := svc.m_request ++ ev.received },
          registered := none, trace := trace })
      (by simp only [on_headers_received, hec, ne_eq, not_false_eq_true, if_true])
    constructor
    · intro hnf
      obtain ⟨c1, h1, h2, h3, h4, _⟩ := this.1 hnf
      exact ⟨c1, h1, h2, h3, h4⟩
    · intro hnf
      obtain ⟨c1, h1, h2, h3, h4, _⟩ := this.2 hnf
      exact ⟨c1, h1, h2, h3, h4⟩

/-- Witness for C6: delimiter-not-found on the request-line read of a fresh
connection, and end-of-file on the header read after `GET /x HTTP/1.1`. -/
theorem read_failure_mapping_witness :
    (∃ c1, run (FileSystem.single [] [])
        ([] ++ [{ ec := asio_error_not_found, bytes_transferred := 0,
                  received := "GET /x".toList }]) = .ok c1 ∧
      c1.svc.m_response_status_code = 413 ∧
      writes c1.trace = ["HTTP/1.1 413 Request Entity Too Large\r\n\r\n".toList] ∧
      c1.registered = some .on_response_sent) ∧
    (∃ c1, run (FileSystem.single [] [])
        ([Completion.ok "GET /x HTTP/1.1\r\n".toList] ++
          [{ ec := asio_error_eof, bytes_transferred := 0, received := "Host".toList }])
        = .ok c1 ∧
      writes c1.trace = [] ∧
      c1.registered = none ∧
      c1.trace = [.async_read_until CRLF, .async_read_until (CRLF ++ CRLF)] ++
        [.cout_error asio_error_eof, .delete_this]) :=
  ⟨(read_failure_mapping (FileSystem.single [] []) [] Conn.accepted
      { ec := asio_error_not_found, bytes_transferred := 0, received := "GET /x".toList }
      rfl (Or.inl rfl) (by decide)).1 rfl,
   (read_failure_mapping (FileSystem.single [] []) [Completion.ok "GET /x HTTP/1.1\r\n".toList]
      { svc := { Service.new with
          m_request := [],
          m_requested_resource := "/x".toList },
        registered := some .on_headers_received,
        trace := [.async_read_until CRLF, .async_read_until (CRLF ++ CRLF)] }
      { ec := asio_error_eof, bytes_transferred := 0, received := "Host".toList }
      rfl (Or.inr rfl) (by decide)).2 (by decide)⟩

/-- C8: whatever completions a handler receives, no callback ends in an
exception (so the lookup `http_status_table.at` in `send_response` never
fails) and the status code of every reachable state is one of 200, 404, 413,
500, 501, 505, each of which has an entry in the table. -/
theorem status_code_always_in_table (fs : FileSystem) (evs : List Completion) :
    ∃ c, run fs evs = .ok c ∧
      c.svc.m_response_status_code ∈ [200, 404, 413, 500, 501, 505] ∧
      ∃ phrase, map_at http_status_table c.svc.m_response_status_code = some phrase := by
  obtain ⟨c, hc, hinv⟩ := run_inv fs evs
  have hcode : c.svc.m_response_status_code ∈ [200, 404, 413, 500, 501, 505] := by
    obtain ⟨svc, reg, trace⟩ := c
    have hwf : ∀ w, well_formed_response svc.m_response_status_code w →
        svc.m_response_status_code ∈ [200, 404, 413, 500, 501, 505] := by
      intro w ⟨phrase, _, _, hmem, _⟩
      simp only [http_status_table, List.mem_cons, Prod.mk.injEq, List.mem_singleton,
        List.not_mem_nil, or_false] at hmem
      simp only [List.mem_cons, List.mem_singleton, List.not_mem_nil, or_false]
      rcases hmem with h | h | h | h | h | h <;> simp [h.1]
    cases reg with
    | none =>
      rcases hinv with ⟨_, h⟩ | ⟨w, _, h⟩
      · simp only at h; simp [h]
      · exact hwf w h
    | some cb =>
      cases cb with
      | on_request_line_received => have h := hinv.1; simp only at h; simp [h]
      | on_headers_received => have h := hinv.1; simp only at h; simp [h]
      | on_response_sent => obtain ⟨w, _, h⟩ := hinv; exact hwf w h
  refine ⟨c, hc, hcode, ?_⟩
  simp only [List.mem_cons, List.mem_singleton, List.not_mem_nil, or_false] at hcode
  rcases hcode with h | h | h | h | h | h <;> rw [h] <;> exact ⟨_, rfl⟩

/-- C9: under any sequence of completions a handler has written at most one
response, and a response it has written is well formed for its status code;
once the write is pending, its completion (successful or not) shuts the socket
down in both directions and destroys the handler without another write; a
destroyed handler does nothing more. -/
theorem at_most_one_well_formed_response (fs : FileSystem) (evs : List Completion) :
    ∃ c, run fs evs = .ok c ∧
      (writes c.trace = [] ∨
        ∃ w, writes c.trace = [w] ∧ well_formed_response c.svc.m_response_status_code w) ∧
      (c.registered = some .on_response_sent →
        (∃ w, writes c.trace = [w]) ∧
        ∀ ev, ∃ c1, run fs (evs ++ [ev]) = .ok c1 ∧
          c1.registered = none ∧
          writes c1.trace = writes c.trace ∧
          c1.trace = c.trace ++ (if ev.ec.value ≠ 0 then [.cout_error ev.ec] else [])
            ++ [.shutdown_both, .delete_this]) ∧
      (c.registered = none → ∀ evs2, run fs (evs ++ evs2) = .ok c) := by
  obtain ⟨c, hc, hinv⟩ := run_inv fs evs
  refine ⟨c, hc, ?_, ?_, ?_⟩
  · obtain ⟨svc, reg, trace⟩ := c
    cases reg with
    | none =>
      rcases hinv with ⟨h, _⟩ | h
      · exact Or.inl h
      · exact Or.inr h
    | some cb =>
      cases cb with
      | on_request_line_received => exact Or.inl hinv.2.2.2.1
      | on_headers_received => exact Or.inl hinv.2.2.2
      | on_response_sent => exact Or.inr hinv
  · intro hreg
    obtain ⟨svc, reg, trace⟩ := c
    simp only at hreg
    subst hreg
    obtain ⟨w, hw, _⟩ := hinv
    refine ⟨⟨w, hw⟩, ?_⟩
    intro ev
    rw [run_snoc, hc]
    refine ⟨_, rfl, rfl, ?_, ?_⟩
    · by_cases hec : ev.ec.value = 0
      · simp [on_response_sent, on_finish, Conn.emit, hec, writes_append, writes]
      · simp [on_response_sent, on_finish, Conn.emit, hec, writes_append, writes]
    · by_cases hec : ev.ec.value = 0
      · simp [on_response_sent, on_finish, Conn.emit, hec]
      · simp [on_response_sent, on_finish, Conn.emit, hec]
  · intro hreg evs2
    unfold run at hc ⊢
    rw [deliver_all_append, hc]
    simp only
    clear hc hinv
    induction evs2 with
    | nil => rfl
    | cons ev evs2 ih => simp only [deliver_all, deliver, hreg]; exact ih

/-! ## The path handed to the file system -/

theorem document_root_resolves : resolve "../root/".toList = document_root := by
  decide

theorem segments_under_root (res : Bytes) :
    segments ("../root/".toList ++ res) = "..".toList :: "root".toList :: segments res := by
  simp [segments, segments_from]

/-- Walking segments that never step above the root, from a directory `depth`
levels below it, ends inside the root. -/
theorem foldl_stays_below_root (segs : List Bytes) :
    ∀ (loc : Location) (depth : Nat),
      loc.ups = 1 → loc.names.length = depth + 1 →
      loc.names.getLast? = some "root".toList →
      steps_above_root depth segs = false →
      inside_document_root (segs.foldl Location.enter loc) = true := by
  induction segs with
  | nil =>
    intro loc depth hu _ hl _
    simp [inside_document_root, hu, hl]
  | cons s segs ih =>
    intro loc depth hu hlen hl hst
    simp only [List.foldl_cons]
    unfold steps_above_root at hst
    unfold Location.enter
    by_cases h1 : s = [] ∨ s = ".".toList
    · simp only [h1, if_true] at hst ⊢
      exact ih loc depth hu hlen hl hst
    · simp only [h1, if_false] at hst ⊢
      by_cases h2 : s = "..".toList
      · simp only [h2, if_true] at hst ⊢
        by_cases hd : depth = 0
        · simp [hd] at hst
        · simp only [hd, if_false] at hst
          obtain ⟨ups, names⟩ := loc
          simp only at hu hlen hl
          cases names with
          | nil => simp at hlen
          | cons x outer =>
            simp only [List.length_cons] at hlen
            cases outer with
            | nil => simp at hlen; omega
            | cons y rest =>
              apply ih _ (depth - 1) hu
              · simp only [List.length_cons] at hlen ⊢; omega
              · simpa [List.getLast?_cons_cons] using hl
              · exact hst
      · simp only [h2, if_false] at hst ⊢
        obtain ⟨ups, names⟩ := loc
        simp only at hu hlen hl
        cases names with
        | nil => simp at hlen
        | cons x outer =>
          apply ih _ (depth + 1) hu
          · simp only [List.length_cons] at hlen ⊢; omega
          · simpa [List.getLast?_cons_cons] using hl
          · exact hst

/-- Sample tokens: `/a/../b` and `/a/./b/` stay below the root, `/../x` and
`/a/../../x` step above it. -/
theorem steps_above_root_samples :
    steps_above_root 0 (segments "/a/../b".toList) = false ∧
    steps_above_root 0 (segments "/a/./b/".toList) = false ∧
    steps_above_root 0 (segments "/../x".toList) = true ∧
    steps_above_root 0 (segments "/a/../../x".toList) = true ∧
    inside_document_root (resolve "../root//a/../b".toList) = true ∧
    inside_document_root (resolve "../root//a/../../x".toList) = false := by
  decide

theorem no_dotdot_never_steps_above (segs : List Bytes) :
    ∀ depth, (∀ s ∈ segs, s ≠ "..".toList) → steps_above_root depth segs = false := by
  induction segs with
  | nil => intro _ _; rfl
  | cons s segs ih =>
    intro depth h
    have hs : s ≠ "..".toList := h s (List.mem_cons_self _ _)
    have hrest : ∀ t ∈ segs, t ≠ "..".toList := fun t ht => h t (List.mem_cons_of_mem _ ht)
    unfold steps_above_root
    by_cases h1 : s = [] ∨ s = ".".toList
    · simp only [h1, if_true]; exact ih depth hrest
    · simp only [h1, hs, if_false]; exact ih (depth + 1) hrest

theorem resolve_under_root (res : Bytes) (h : steps_above_root 0 (segments res) = false) :
    inside_document_root (resolve ("../root/".toList ++ res)) = true := by
  unfold resolve
  rw [segments_under_root]
  simp only [List.foldl_cons]
  exact foldl_stays_below_root _ _ 0 rfl rfl rfl h

/-- For a request with method `GET` and version `HTTP/1.1` followed by a
successful header read the file system is consulted, and only about the text
`../root/` followed by the resource token, whatever the token is. -/
theorem served_path_text (fs : FileSystem) (ev1 ev2 : Completion)
    (hec1 : ev1.ec.value = 0)
    (hm : method_token ev1.received = "GET".toList)
    (hv : version_token ev1.received = "HTTP/1.1".toList)
    (hec2 : ev2.ec.value = 0) :
    ∃ c, run fs [ev1, ev2] = .ok c ∧
      fs_paths c.trace ≠ [] ∧
      ∀ p ∈ fs_paths c.trace, p = "../root/".toList ++ resource_token ev1.received := by
  obtain ⟨rest, headers, h⟩ := run_get_request fs ev1 ev2 hec1 hm hv hec2
  rw [h]
  simp only [process_request, Conn.emit, Service.new]
  by_cases hex : fs.file_exists ("../root/".toList ++ resource_token ev1.received) = true
  · simp only [hex, Bool.not_true, Bool.false_eq_true, if_false]
    cases hop : fs.open_binary ("../root/".toList ++ resource_token ev1.received) with
    | none =>
      simp only [send_response, Conn.emit]
      refine ⟨_, rfl, ?_, ?_⟩
      · simp [fs_paths, CRLF]
      · intro p hp
        simp [fs_paths, CRLF] at hp
        exact hp
    | some contents =>
      simp only [send_response, Conn.emit]
      refine ⟨_, rfl, ?_, ?_⟩
      · simp [fs_paths, CRLF]
      · intro p hp
        simp [fs_paths, CRLF] at hp
        exact hp
  · have hex2 : fs.file_exists ("../root/".toList ++ resource_token ev1.received) = false := by
      simpa using hex
    simp only [hex2, Bool.not_false, if_true, send_response, Conn.emit]
    refine ⟨_, rfl, ?_, ?_⟩
    · simp [fs_paths, CRLF]
    · intro p hp
      simp [fs_paths, CRLF] at hp
      exact hp

/-- C7 as stated fails: the accepted request line `GET /../secret.txt HTTP/1.1`
makes the handler check and open `../root//../secret.txt`, which resolves to a
sibling of the document root, and the file found there is served. -/
theorem dotdot_resource_leaves_document_root :
    ∃ c, run (FileSystem.single "../root//../secret.txt".toList "key".toList)
        [Completion.ok "GET /../secret.txt HTTP/1.1\r\nHost: x\r\n\r\n".toList, Completion.ok []]
        = .ok c ∧
      fs_paths c.trace = ["../root//../secret.txt".toList, "../root//../secret.txt".toList] ∧
      resolve "../root//../secret.txt".toList = { ups := 1, names := ["secret.txt".toList] } ∧
      inside_document_root (resolve "../root//../secret.txt".toList) = false ∧
      writes c.trace = ["HTTP/1.1 200 OK\r\ncontent-length: 3\r\n\r\nkey".toList] :=
  ⟨_, rfl, by decide, by decide, by decide, by decide⟩

/-- C7, amended: for a request with method `GET` and version `HTTP/1.1`
followed by a successful header read, every path handed to the file system is
the text `../root/` followed by the resource token, whatever the token is
(tokens with `..` segments included); and when the segments of the token
never step above the document root, in particular when the token has no `..`
segment, that path resolves inside the document root. -/
theorem served_path_under_root (fs : FileSystem) (ev1 ev2 : Completion)
    (hec1 : ev1.ec.value = 0)
    (hm : method_token ev1.received = "GET".toList)
    (hv : version_token ev1.received = "HTTP/1.1".toList)
    (hec2 : ev2.ec.value = 0) :
    ∃ c, run fs [ev1, ev2] = .ok c ∧
      fs_paths c.trace ≠ [] ∧
      (∀ p ∈ fs_paths c.trace, p = "../root/".toList ++ resource_token ev1.received) ∧
      (steps_above_root 0 (segments (resource_token ev1.received)) = false →
        ∀ p ∈ fs_paths c.trace, inside_document_root (resolve p) = true) ∧
      ((∀ s ∈ segments (resource_token ev1.received), s ≠ "..".toList) →
        ∀ p ∈ fs_paths c.trace, inside_document_root (resolve p) = true) := by
  obtain ⟨c, hc, hne, hall⟩ := served_path_text fs ev1 ev2 hec1 hm hv hec2
  refine ⟨c, hc, hne, hall, ?_, ?_⟩
  · intro hst p hp
    rw [hall p hp]
    exact resolve_under_root _ hst
  · intro hdd p hp
    rw [hall p hp]
    exact resolve_under_root _ (no_dotdot_never_steps_above _ 0 hdd)

/-- Witness for the amended C7.  `GET /docs/../index.html HTTP/1.1` has a `..`
segment that stays below the root: the path is `../root/` followed by the
token and resolves inside the root.  `GET /../secret.txt HTTP/1.1` steps above
the root: the path is still `../root/` followed by the token. -/
theorem served_path_under_root_witness :
    (∃ c, run (FileSystem.single "../root//index.html".toList "hi".toList)
        [Completion.ok "GET /docs/../index.html HTTP/1.1\r\nHost: x\r\n\r\n".toList,
          Completion.ok []] = .ok c ∧
      fs_paths c.trace ≠ [] ∧
      (∀ p ∈ fs_paths c.trace, p = "../root//docs/../index.html".toList) ∧
      (∀ p ∈ fs_paths c.trace, inside_document_root (resolve p) = true)) ∧
    (∃ c, run (FileSystem.single "../root//../secret.txt".toList "key".toList)
        [Completion.ok "GET /../secret.txt HTTP/1.1\r\nHost: x\r\n\r\n".toList,
          Completion.ok []] = .ok c ∧
      fs_paths c.trace ≠ [] ∧
      (∀ p ∈ fs_paths c.trace, p = "../root//../secret.txt".toList)) := by
  constructor
  · obtain ⟨c, hc, hne, hall, hin, _⟩ := served_path_under_root
      (FileSystem.single "../root//index.html".toList "hi".toList)
      (Completion.ok "GET /docs/../index.html HTTP/1.1\r\nHost: x\r\n\r\n".toList)
      (Completion.ok []) (by decide) (by decide) (by decide) (by decide)
    exact ⟨c, hc, hne, hall, hin (by decide)⟩
  · obtain ⟨c, hc, hne, hall, _, _⟩ := served_path_under_root
      (FileSystem.single "../root//../secret.txt".toList "key".toList)
      (Completion.ok "GET /../secret.txt HTTP/1.1\r\nHost: x\r\n\r\n".toList)
      (Completion.ok []) (by decide) (by decide) (by decide) (by decide)
    exact ⟨c, hc, hne, hall⟩

/-- Witness for C9: after `POST /x HTTP/1.1` the write is pending with the
single response `HTTP/1.1 501 Not Implemented` CRLF CRLF written; a failed
write completion logs the error, shuts the socket down and destroys the
handler, and nothing is written after that. -/
theorem at_most_one_well_formed_response_witness :
    ∃ c, run (FileSystem.single [] []) [Completion.ok "POST /x HTTP/1.1\r\n\r\n".toList] = .ok c ∧
      c.registered = some .on_response_sent ∧
      writes c.trace = ["HTTP/1.1 501 Not Implemented\r\n\r\n".toList] ∧
      ∃ c1, run (FileSystem.single [] [])
          ([Completion.ok "POST /x HTTP/1.1\r\n\r\n".toList] ++
            [{ ec := asio_error_eof, bytes_transferred := 0, received := [] }]) = .ok c1 ∧
        c1.registered = none ∧
        writes c1.trace = writes c.trace ∧
        c1.trace = c.trace ++ [.cout_error asio_error_eof] ++ [.shutdown_both, .delete_this] := by
  obtain ⟨c, hc, _, hsent, _⟩ := at_most_one_well_formed_response (FileSystem.single [] [])
    [Completion.ok "POST /x HTTP/1.1\r\n\r\n".toList]
  have hc2 : run (FileSystem.single [] []) [Completion.ok "POST /x HTTP/1.1\r\n\r\n".toList]
      = .ok { svc := { Service.new with
                m_request := CRLF,
                m_response_status_code := 501,
                m_response_headers := CRLF,
                m_response_status_line := "HTTP/1.1 501 Not Implemented\r\n".toList },
              registered := some .on_response_sent,
              trace := [.async_read_until CRLF, .shutdown_receive,
                .async_write ["HTTP/1.1 501 Not Implemented\r\n".toList, CRLF]] } := rfl
  rw [hc2] at hc
  cases hc
  obtain ⟨c1, h1, h2, h3, h4⟩ := (hsent rfl).2
    { ec := asio_error_eof, bytes_transferred := 0, received := [] }
  exact ⟨_, hc2, rfl, by decide, c1, h1, h2, h3, h4⟩

/-! ## The acceptor -/

/-- The listening socket is open with exactly one accept pending, or it was
closed by a completion that saw the stop flag and nothing is pending. -/
theorem acceptor_inv (evs : List AcceptorEvent) :
    ((Acceptor.run evs).is_open = true ∧ (Acceptor.run evs).pending_accepts = 1) ∨
    ((Acceptor.run evs).is_open = false ∧ (Acceptor.run evs).pending_accepts = 0 ∧
      (Acceptor.run evs).m_isStopped = true) := by
  induction evs using List.reverseRecOn with
  | nil => left; exact ⟨rfl, rfl⟩
  | append_singleton evs ev ih =>
    have hrun : Acceptor.run (evs ++ [ev]) = (Acceptor.run evs).step ev := by
      simp [Acceptor.run, List.foldl_append]
    rw [hrun]
    generalize Acceptor.run evs = a at ih
    obtain ⟨stopped, isopen, pend, trace⟩ := a
    simp only at ih
    cases ev with
    | stop =>
      rcases ih with ⟨h1, h2⟩ | ⟨h1, h2, h3⟩
      · left; exact ⟨h1, h2⟩
      · right; exact ⟨h1, h2, rfl⟩
    | accept_completed ec =>
      rcases ih with ⟨h1, h2⟩ | ⟨h1, h2, h3⟩
      · subst h1 h2
        cases stopped <;> by_cases hec : ec.value = 0 <;>
          simp [Acceptor.step, Acceptor.onAccept, Acceptor.InitAccept, hec]
      · subst h1 h2 h3
        right
        simp [Acceptor.step]

theorem acceptor_closed_stays (evs2 : List AcceptorEvent) :
    ∀ a : Acceptor, a.pending_accepts = 0 →
      (evs2.foldl Acceptor.step a).trace = a.trace ∧
      (evs2.foldl Acceptor.step a).pending_accepts = 0 := by
  induction evs2 with
  | nil => intro a h; exact ⟨rfl, h⟩
  | cons ev evs2 ih =>
    intro a h
    simp only [List.foldl_cons]
    cases ev with
    | stop => exact ih a.Stop h
    | accept_completed ec =>
      have : a.step (.accept_completed ec) = a := by simp [Acceptor.step, h]
      rw [this]
      exact ih a h

/-- C10: after `Start` and any sequence of events at most one accept is
pending.  A completion delivered while an accept is pending starts a service
exactly when the accept succeeded and then, on success and on failure alike,
arms exactly one new accept when the stop flag is clear, and closes the
listening socket without arming anything when it is set.  Once the socket has
been closed that way nothing is pending and no later event arms an accept. -/
theorem acceptor_step_relation (evs : List AcceptorEvent) (ec : error_code) :
    (Acceptor.run evs).pending_accepts ≤ 1 ∧
    ((Acceptor.run evs).pending_accepts = 1 →
      (Acceptor.run (evs ++ [.accept_completed ec])).trace =
        (Acceptor.run evs).trace
          ++ [if ec.value = 0 then .start_service else .cout_error ec]
          ++ [if (Acceptor.run evs).m_isStopped then .close else .async_accept] ∧
      services_started (Acceptor.run (evs ++ [.accept_completed ec])).trace =
        services_started (Acceptor.run evs).trace + (if ec.value = 0 then 1 else 0) ∧
      accepts_armed (Acceptor.run (evs ++ [.accept_completed ec])).trace =
        accepts_armed (Acceptor.run evs).trace
          + (if (Acceptor.run evs).m_isStopped then 0 else 1) ∧
      (Acceptor.run (evs ++ [.accept_completed ec])).pending_accepts =
        (if (Acceptor.run evs).m_isStopped then 0 else 1) ∧
      (Acceptor.run (evs ++ [.accept_completed ec])).is_open =
        !(Acceptor.run evs).m_isStopped) ∧
    ((Acceptor.run evs).is_open = false →
      (Acceptor.run evs).m_isStopped = true ∧
      (Acceptor.run evs).pending_accepts = 0 ∧
      ∀ evs2, (Acceptor.run (evs ++ evs2)).trace = (Acceptor.run evs).trace ∧
        (Acceptor.run (evs ++ evs2)).pending_accepts = 0) := by
  have hinv := acceptor_inv evs
  have hrun : Acceptor.run (evs ++ [.accept_completed ec])
      = (Acceptor.run evs).step (.accept_completed ec) := by
    simp [Acceptor.run, List.foldl_append]
  have hrun2 : ∀ evs2, Acceptor.run (evs ++ evs2)
      = evs2.foldl Acceptor.step (Acceptor.run evs) := by
    intro evs2; simp [Acceptor.run, List.foldl_append]
  refine ⟨?_, ?_, ?_⟩
  · rcases hinv with ⟨_, h⟩ | ⟨_, h, _⟩ <;> omega
  · intro hp
    rw [hrun]
    generalize Acceptor.run evs = a at hp hinv
    obtain ⟨stopped, isopen, pend, trace⟩ := a
    simp only at hp
    subst hp
    have hopen : isopen = true := by
      rcases hinv with ⟨h, _⟩ | ⟨_, h, _⟩
      · exact h
      · simp at h
    subst hopen
    cases stopped <;> by_cases hec : ec.value = 0 <;>
      simp [Acceptor.step, Acceptor.onAccept, Acceptor.InitAccept, hec, services_started,
        accepts_armed, List.count_append]
  · intro hclosed
    rcases hinv with ⟨h, _⟩ | ⟨_, hp, hs⟩
    · rw [hclosed] at h; cases h
    · refine ⟨hs, hp, ?_⟩
      intro evs2
      rw [hrun2]
      exact acceptor_closed_stays evs2 _ hp

/-- Witness for C10: right after `Start` one accept is pending and a
successful completion starts a service and arms the next accept; after `Stop`
and a failed completion the socket is closed and no later event arms an
accept. -/
theorem acceptor_step_relation_witness :
    (Acceptor.run []).pending_accepts = 1 ∧
    (Acceptor.run ([] ++ [.accept_completed error_code.success])).trace =
      [.listen, .async_accept, .start_service, .async_accept] ∧
    (Acceptor.run [.stop, .accept_completed asio_error_eof]).is_open = false ∧
    ∀ evs2, (Acceptor.run ([.stop, .accept_completed asio_error_eof] ++ evs2)).trace =
      [.listen, .async_accept, .cout_error asio_error_eof, .close] :=
  ⟨rfl,
   ((acceptor_step_relation [] error_code.success).2.1 rfl).1,
   rfl,
   fun evs2 =>
    (((acceptor_step_relation [.stop, .accept_completed asio_error_eof]
      error_code.success).2.2 rfl).2.2 evs2).1⟩

/-! ## The transport -/

theorem find_delim_length (delim : Bytes) :
    ∀ (buf : Bytes) (p : Nat), find_delim delim buf = some p → delim.length ≤ buf.length := by
  intro buf
  induction buf with
  | nil =>
    intro p h
    unfold find_delim at h
    by_cases hp : delim.isPrefixOf [] = true
    · have := (List.isPrefixOf_iff_prefix.mp hp).length_le
      simpa using this
    · simp [hp] at h
  | cons c cs ih =>
    intro p h
    unfold find_delim at h
    by_cases hp : delim.isPrefixOf (c :: cs) = true
    · exact (List.isPrefixOf_iff_prefix.mp hp).length_le
    · simp only [hp, Bool.false_eq_true, if_false, Option.map_eq_some'] at h
      obtain ⟨q, hq, _⟩ := h
      have := ih q hq
      simp only [List.length_cons]
      omega

theorem peer_error_is_failure (e : PeerEnd) (ec : error_code) (h : e.error = some ec) :
    ec.value ≠ 0 ∧ ec ≠ asio_error_not_found := by
  cases e with
  | idle => simp [PeerEnd.error] at h
  | closed =>
    simp only [PeerEnd.error, Option.some.injEq] at h
    subst h
    exact ⟨by decide, by decide⟩
  | failed errno =>
    simp only [PeerEnd.error, Option.some.injEq] at h
    subst h
    constructor
    · simp only [ne_eq]; omega
    · intro hc
      have := congrArg error_code.category hc
      simp [asio_error_not_found] at this

/-- The read loop always ends within the bound: it stays pending only on an
idle peer with everything read and no delimiter in the buffer; it completes
with the bytes split between buffer and socket, successfully only when the
buffer contains the delimiter, with not-found only when the buffer is full,
and otherwise with the error of the peer. -/
theorem async_read_until_spec (delim buf0 : Bytes) (ending : PeerEnd) (fuel : Nat) :
    ∀ (committed unread : Bytes) (chunks : List Nat),
      unread.length < fuel →
      (buf0 ++ committed).length ≤ m_request_max_size →
      ∃ o, async_read_until delim buf0 ending fuel committed unread chunks = some o ∧
        (∀ cm, o = .pending cm →
          ending.error = none ∧ cm = committed ++ unread) ∧
        (∀ ec k cm ur ch, o = .completed ec k cm ur ch →
          cm ++ ur = committed ++ unread ∧
          ((ec = error_code.success ∧ ∃ p, find_delim delim (buf0 ++ cm) = some p) ∨
           (ec = asio_error_not_found ∧ (buf0 ++ cm).length = m_request_max_size) ∨
           ending.error = some ec)) := by
  induction fuel with
  | zero => intro _ unread _ h; omega
  | succ fuel ih =>
    intro committed unread chunks hfuel hmax
    unfold async_read_until
    cases hfind : find_delim delim (buf0 ++ committed) with
    | some pos =>
      simp only [Option.isSome_some, if_true]
      refine ⟨_, rfl, ?_, ?_⟩
      · intro cm h; cases h
      · intro ec k cm ur ch h
        cases h
        exact ⟨rfl, Or.inl ⟨rfl, pos, hfind⟩⟩
    | none =>
      simp only [Option.isSome_none, Bool.false_eq_true, if_false]
      by_cases hfull : (buf0 ++ committed).length = m_request_max_size
      · simp only [hfull, if_true]
        refine ⟨_, rfl, ?_, ?_⟩
        · intro cm h; cases h
        · intro ec k cm ur ch h
          cases h
          exact ⟨rfl, Or.inr (Or.inl ⟨rfl, hfull⟩)⟩
      · simp only [hfull, if_false]
        by_cases hur : unread = []
        · subst hur
          simp only [if_true, read_exhausted]
          cases herr : ending.error with
          | none =>
            refine ⟨_, rfl, ?_, ?_⟩
            · intro cm h; cases h; exact ⟨rfl, by simp⟩
            · intro ec k cm ur ch h; cases h
          | some ec0 =>
            refine ⟨_, rfl, ?_, ?_⟩
            · intro cm h; cases h
            · intro ec k cm ur ch h
              cases h
              exact ⟨rfl, Or.inr (Or.inr rfl)⟩
        · simp only [hur, if_false]
          have hpos : 1 ≤ unread.length := by
            cases unread with
            | nil => exact absurd rfl hur
            | cons b bs => simp
          have hn1 : 1 ≤ read_some_size chunks
              (m_request_max_size - (buf0 ++ committed).length) unread := by
            unfold read_some_size; omega
          have hn2 : read_some_size chunks
              (m_request_max_size - (buf0 ++ committed).length) unread
              ≤ m_request_max_size - (buf0 ++ committed).length := by
            unfold read_some_size; omega
          have hn3 : read_some_size chunks
              (m_request_max_size - (buf0 ++ committed).length) unread ≤ unread.length := by
            unfold read_some_size; omega
          generalize read_some_size chunks
              (m_request_max_size - (buf0 ++ committed).length) unread = n at hn1 hn2 hn3
          obtain ⟨o, ho, hpend, hcomp⟩ := ih (committed ++ unread.take n) (unread.drop n)
            chunks.tail
            (by simp only [List.length_drop]; omega)
            (by
              simp only [List.length_append, List.length_take] at hmax hn2 ⊢
              omega)
          refine ⟨o, ho, ?_, ?_⟩
          · intro cm h
            obtain ⟨h1, h2⟩ := hpend cm h
            refine ⟨h1, ?_⟩
            rw [h2, List.append_assoc, List.take_append_drop]
          · intro ec k cm ur ch h
            obtain ⟨h1, h2⟩ := hcomp ec k cm ur ch h
            refine ⟨?_, h2⟩
            rw [h1, List.append_assoc, List.take_append_drop]

theorem drive_finished (fs : FileSystem) (ending : PeerEnd) (write_ec : error_code) (n : Nat)
    (c : Conn) (unread : Bytes) (chunks : List Nat) (h : c.registered = none) :
    drive fs ending write_ec (n + 1) c unread chunks = .ok (.finished c) := by
  unfold drive
  simp only [h]

/-- A read that fails with an error other than delimiter-not-found destroys
the handler without a write. -/
theorem deliver_read_failure (fs : FileSystem) (c : Conn) (ev : Completion)
    (hinv : handler_inv c)
    (hstage : c.registered = some .on_request_line_received ∨
      c.registered = some .on_headers_received)
    (hec : ev.ec.value ≠ 0) (hnf : ev.ec ≠ asio_error_not_found) :
    ∃ c1, deliver fs c ev = .ok c1 ∧ writes c1.trace = [] ∧ c1.registered = none ∧
      c1.trace = c.trace ++ [.cout_error ev.ec, .delete_this] := by
  obtain ⟨svc, reg, trace⟩ := c
  simp only at hstage
  rcases hstage with hreg | hreg
  · subst hreg
    obtain ⟨hcode, hh, hs, hw, _⟩ := hinv
    simp only at hcode hh hs hw
    obtain ⟨c1, h1, h2, h3, h4, _⟩ := (read_failure_step
      { svc := { svc with m_request := svc.m_request ++ ev.received },
        registered := none, trace := trace } ev.ec hcode hh hs hw
      (on_request_line_received ev.ec
        { svc := { svc with m_request := svc.m_request ++ ev.received },
          registered := none, trace := trace })
      (by simp only [on_request_line_received, hec, ne_eq, not_false_eq_true, if_true])).2 hnf
    exact ⟨c1, h1, h2, h3, h4⟩
  · subst hreg
    obtain ⟨hcode, hh, hs, hw⟩ := hinv
    simp only at hcode hh hs hw
    obtain ⟨c1, h1, h2, h3, h4, _⟩ := (read_failure_step
      { svc := { svc with m_request := svc.m_request ++ ev.received },
        registered := none, trace := trace } ev.ec hcode hh hs hw
      (on_headers_received fs ev.ec
        { svc := { svc with m_request := svc.m_request ++ ev.received },
          registered := none, trace := trace })
      (by simp only [on_headers_received, hec, ne_eq, not_false_eq_true, if_true])).2 hnf
    exact ⟨c1, h1, h2, h3, h4⟩

theorem fs_paths_append (l1 l2 : List Effect) :
    fs_paths (l1 ++ l2) = fs_paths l1 ++ fs_paths l2 := by
  induction l1 with
  | nil => rfl
  | cons e es ih => cases e <;> simp [fs_paths, ih]

/-- A header read for which fewer than four bytes exist in the buffer and on
the wire together never completes successfully: the handler stalls or is
destroyed, and writes nothing. -/
theorem header_read_starved (fs : FileSystem) (ending : PeerEnd) (write_ec : error_code)
    (n : Nat) (c : Conn) (unread : Bytes) (chunks : List Nat)
    (hreg : c.registered = some .on_headers_received)
    (hlast : c.trace.getLast? = some (.async_read_until (CRLF ++ CRLF)))
    (hinv : handler_inv c)
    (hshort : c.svc.m_request.length + unread.length < 4) :
    ∃ s, drive fs ending write_ec (n + 2) c unread chunks = .ok s ∧
      writes s.conn.trace = [] ∧ fs_paths s.conn.trace = fs_paths c.trace := by
  have hw : writes c.trace = [] := by
    obtain ⟨svc, reg, trace⟩ := c
    simp only at hreg
    subst hreg
    exact hinv.2.2.2
  obtain ⟨o, ho, hpend, hcomp⟩ := async_read_until_spec (CRLF ++ CRLF) c.svc.m_request ending
    (unread.length + 1) [] unread chunks (by omega)
    (by simp only [List.append_nil, m_request_max_size]; omega)
  unfold drive
  simp only [hreg, hlast, ho]
  cases o with
  | pending cm =>
    exact ⟨_, rfl, hw, rfl⟩
  | completed ec k cm ur ch =>
    obtain ⟨hsplit, hcase⟩ := hcomp ec k cm ur ch rfl
    have hlen : cm.length ≤ unread.length := by
      have := congrArg List.length hsplit
      simp only [List.length_append, List.nil_append] at this
      omega
    rcases hcase with ⟨_, p, hp⟩ | ⟨_, hfull⟩ | herr
    · have := find_delim_length _ _ _ hp
      simp only [List.length_append, CRLF] at this
      have h4 : ("\r\n".toList).length = 2 := by decide
      omega
    · simp only [List.length_append, m_request_max_size] at hfull
      omega
    · obtain ⟨hne, hnf⟩ := peer_error_is_failure ending ec herr
      obtain ⟨c1, h1, h2, h3, h4⟩ := deliver_read_failure fs c
        { ec := ec, bytes_transferred := k, received := cm } hinv (Or.inr hreg) hne hnf
      simp only [h1]
      rw [drive_finished _ _ _ _ _ _ _ h3]
      refine ⟨_, rfl, h2, ?_⟩
      simp only [Session.conn, h4, fs_paths_append, fs_paths, List.append_nil]

theorem headerless_prefix_tokens (j : Nat) (h1 : 27 ≤ j) (h2 : j ≤ 29) :
    method_token (headerless_request.take j) = "GET".toList ∧
    version_token (headerless_request.take j) = "HTTP/1.1".toList ∧
    (after_request_line (headerless_request.take j)).length
      + (headerless_request.drop j).length < 4 := by
  interval_cases j <;> decide

theorem headerless_prefix_no_line (j : Nat) (h : j < 27) :
    find_delim CRLF (headerless_request.take j) = none := by
  interval_cases j <;> decide

/-- C5, behaviour of the code: when a client sends exactly
`GET /missing.txt HTTP/1.1` CRLF CRLF, then however the network splits the
bytes, whatever the client does afterwards and whatever the file system
holds, the handler never writes a response and never consults the file
system.  After the request line and its CRLF are consumed only one CRLF is
left, the header read waits for CRLF CRLF, and the handler either waits for
ever or is destroyed by the failed read. -/
theorem headerless_get_gets_no_response (fs : FileSystem) (chunks : List Nat)
    (ending : PeerEnd) (write_ec : error_code) :
    ∃ s, serve fs { bytes := headerless_request, chunks := chunks, ending := ending } write_ec
        = .ok s ∧
      writes s.conn.trace = [] ∧
      fs_paths s.conn.trace = [] ∧
      (ending = .idle → ∃ c, s = .stalled c) := by
  obtain ⟨o, ho, hpend, hcomp⟩ := async_read_until_spec CRLF [] ending
    (headerless_request.length + 1) [] headerless_request chunks (by omega)
    (by simp [m_request_max_size])
  have hacc : Conn.accepted.trace.getLast? = some (.async_read_until CRLF) := rfl
  have hreg : Conn.accepted.registered = some .on_request_line_received := rfl
  have hreq : Conn.accepted.svc.m_request = [] := rfl
  unfold serve drive
  simp only [hreg, hacc, hreq, ho]
  cases o with
  | pending cm =>
    exact ⟨_, rfl, rfl, rfl, fun _ => ⟨_, rfl⟩⟩
  | completed ec k cm ur ch =>
    obtain ⟨hsplit, hcase⟩ := hcomp ec k cm ur ch rfl
    simp only [List.nil_append] at hsplit hcase
    have hlen : cm.length ≤ 29 := by
      have := congrArg List.length hsplit
      simp only [List.length_append] at this
      have h29 : headerless_request.length = 29 := by decide
      omega
    have hcm : cm = headerless_request.take cm.length := by
      rw [← hsplit]; simp
    have hur : ur = headerless_request.drop cm.length := by
      rw [← hsplit]; simp
    rcases hcase with ⟨hok, p, hp⟩ | ⟨_, hfull⟩ | herr
    · -- the request line was read
      have h27 : 27 ≤ cm.length := by
        by_contra hlt
        have := headerless_prefix_no_line cm.length (by omega)
        rw [← hcm, hp] at this
        cases this
      obtain ⟨hm, hv, hshort⟩ := headerless_prefix_tokens cm.length h27 hlen
      rw [← hcm] at hm hv hshort
      rw [← hur] at hshort
      have hstep := run_get_line fs { ec := ec, bytes_transferred := k, received := cm }
        (by simp only [hok]; rfl) hm hv
      simp only [run, deliver_all_single] at hstep
      simp only [hstep]
      obtain ⟨s, hs, hw, hp2⟩ := header_read_starved fs ending write_ec 1
        { svc := { Service.new with
            m_request := after_request_line cm,
            m_requested_resource := resource_token cm },
          registered := some .on_headers_received,
          trace := [.async_read_until CRLF, .async_read_until (CRLF ++ CRLF)] }
        ur ch rfl rfl ⟨rfl, rfl, rfl, rfl⟩ hshort
      refine ⟨s, hs, hw, hp2, ?_⟩
      intro hidle
      subst hidle
      -- on an idle peer the header read stays pending
      obtain ⟨o2, ho2, hpend2, hcomp2⟩ := async_read_until_spec (CRLF ++ CRLF)
        (after_request_line cm) PeerEnd.idle (ur.length + 1) [] ur ch (by omega)
        (by simp only [List.append_nil, m_request_max_size]; omega)
      unfold drive at hs
      simp only [List.getLast?, List.getLast, ho2] at hs
      cases o2 with
      | pending cm2 =>
        simp only [Except.ok.injEq] at hs
        exact ⟨_, hs.symm⟩
      | completed ec2 k2 cm2 ur2 ch2 =>
        obtain ⟨hsplit2, hcase2⟩ := hcomp2 ec2 k2 cm2 ur2 ch2 rfl
        have hlen2 : cm2.length ≤ ur.length := by
          have := congrArg List.length hsplit2
          simp only [List.length_append, List.nil_append] at this
          omega
        rcases hcase2 with ⟨_, p2, hp2⟩ | ⟨_, hfull2⟩ | herr2
        · have := find_delim_length _ _ _ hp2
          simp only [List.length_append, CRLF] at this
          have h4 : ("\r\n".toList).length = 2 := by decide
          omega
        · simp only [List.length_append, m_request_max_size] at hfull2
          omega
        · simp [PeerEnd.error] at herr2
    · simp only [m_request_max_size] at hfull
      omega
    · obtain ⟨hne, hnf⟩ := peer_error_is_failure ending ec herr
      obtain ⟨c1, h1, h2, h3, h4⟩ := deliver_read_failure fs Conn.accepted
        { ec := ec, bytes_transferred := k, received := cm } accepted_inv (Or.inl rfl) hne hnf
      simp only [h1]
      rw [drive_finished _ _ _ _ _ _ _ h3]
      refine ⟨_, rfl, h2, ?_, ?_⟩
      · simp only [Session.conn, h4, fs_paths_append]
        rfl
      · intro hidle
        subst hidle
        simp [PeerEnd.error] at herr

/-- The transport model does deliver requests: the same request with a `Host`
header, split into small pieces by the network, is answered with 404. -/
theorem get_with_header_is_answered :
    ∃ s, serve (FileSystem.single "../root//index.html".toList "0123456789".toList)
        { bytes := "GET /missing.txt HTTP/1.1\r\nHost: x\r\n\r\n".toList,
          chunks := [3, 0, 25, 1], ending := .idle } error_code.success = .ok s ∧
      writes s.conn.trace = ["HTTP/1.1 404 Not Found\r\n\r\n".toList] :=
  ⟨_, rfl, by decide⟩

/-- The failing run in its simplest form: all 29 bytes arrive at once and the
client then waits for the response.  The handler is left waiting in the
header read with `\r\n` in its buffer, having written nothing. -/
theorem headerless_get_stalls :
    serve (FileSystem.single "../root//index.html".toList "0123456789".toList)
        { bytes := headerless_request, chunks := [], ending := .idle } error_code.success
      = .ok (.stalled
          { svc := { Service.new with
              m_request := CRLF,
              m_requested_resource := "/missing.txt".toList },
            registered := some .on_headers_received,
            trace := [.async_read_until CRLF, .async_read_until (CRLF ++ CRLF)] }) := by
  rfl

end HttpServer
